import Mathlib

/-!
Verification development for the Eclipse Kanto local-digital-twins core.

The Lean definitions below are a shallow embedding of:
  * the things storage (`internal/persistence/things_storage.go` together
    with the data layer `internal/persistence/data/data.go`),
  * the ditto command handling helpers (`internal/commands` package),
  * the feature synchronization command construction
    (`internal/sync/synchronizer.go`),
  * topic parsing and the protocol headers (`internal/protocol/topic.go`
    and the headers implementation of the protocol package),
  * the JSON field selector compilation
    (`internal/jsonutil/json_field_selector.go`).

Go maps (`map[string]V`) are modelled as association lists in insertion
order; Go int64 arithmetic that can overflow is modelled with explicit
wrapping where it matters; Go run time panics (out of range indexing) are
modelled with an explicit `GoPartial.panic` result.
-/

namespace LDT

/-! ### Go map model: association lists keyed by strings.

`alookup` models `m[k]`, `aset` models the assignment `m[k] = v`,
`aerase` models `delete(m, k)`. Iteration is modelled in list order. -/

def alookup {β : Type} : List (String × β) → String → Option β
  | [], _ => none
  | (k', v) :: rest, k => if k' = k then some v else alookup rest k

def aset {β : Type} : List (String × β) → String → β → List (String × β)
  | [], k, v => [(k, v)]
  | (k', v') :: rest, k, v =>
      if k' = k then (k, v) :: rest else (k', v') :: aset rest k v

def aerase {β : Type} : List (String × β) → String → List (String × β)
  | [], _ => []
  | (k', v) :: rest, k =>
      if k' = k then aerase rest k else (k', v) :: aerase rest k

def amem {β : Type} (m : List (String × β)) (k : String) : Bool :=
  (alookup m k).isSome

/-- Membership in the string set model of Go `map[string]interface{}`
used as a set (all stored values are `nil`). -/
def smem : List String → String → Bool
  | [], _ => false
  | x :: rest, k => if x = k then true else smem rest k

/-- Set insertion; keeps the set free of duplicates. -/
def sinsert (s : List String) (k : String) : List String :=
  if smem s k then s else s ++ [k]

def serase : List String → String → List String
  | [], _ => []
  | x :: rest, k => if x = k then serase rest k else x :: serase rest k

/-! ### Dynamic JSON values (Go `interface{}` payloads). -/

inductive JsonVal where
  | null
  | bool (b : Bool)
  | num (n : Int)
  | str (s : String)
  | arr (elems : List JsonVal)
  | obj (fields : List (String × JsonVal))
deriving Repr

/-! ### Persisted data records (`internal/persistence/data/data.go`). -/

/-- `data.ThingData`: the persisted thing record without features. -/
structure ThingData where
  id : String
  policyID : String := ""
  definitionID : String := ""
  attributes : List (String × JsonVal) := []
deriving Repr

/-- `model.Feature`. Modelled from the spec: the model package is not under
src; the spec defines a feature as definition list plus optional
`properties` and `desiredProperties` maps, where an absent map (Go nil)
differs from an empty one. -/
structure Feature where
  definition : List String := []
  properties : Option (List (String × JsonVal)) := none
  desiredProperties : Option (List (String × JsonVal)) := none
deriving Repr

/-- `data.SystemThingData`: the per thing synchronization ledger. -/
structure SystemThingData where
  id : String
  revision : Int
  timestamp : String := ""
  deletedFeatures : List String := []
  unsynchronizedFeatures : List (String × Int) := []
deriving Repr

/-- The things database content. The Go store is one flat bucket with keys
`<thingID>` (ThingData), `§<thingID>` (SystemThingData) and
`<thingID>§<featureID>` (FeatureData); since `§` is forbidden inside IDs
those key families are disjoint and are modelled as three maps keyed by
thing ID. The features of one thing are one inner map keyed by feature ID
(the FeatureData record is a field for field copy of the feature, see
`featureData` in things_storage.go). -/
structure Storage where
  things : List (String × ThingData) := []
  systems : List (String × SystemThingData) := []
  features : List (String × List (String × Feature)) := []
deriving Repr

/-- Storage error results surfaced by things_storage.go. -/
inductive StorageErr where
  | thingNotFound
  | featureNotFound
  | invalidThing
deriving Repr, DecidableEq

/-- `model.NamespacedID`. Modelled from the spec: pair with canonical string
form `namespace:name`. -/
structure NamespacedID where
  nspace : String
  name : String
deriving Repr, DecidableEq

def NamespacedID.render (i : NamespacedID) : String :=
  i.nspace ++ ":" ++ i.name

/-- `model.Thing` as used on the `AddThing` input side. Modelled from the
spec: id plus optional policy and definition ids, attributes, an optional
features map (Go nil map versus empty map) and the incoming revision. -/
structure ThingPayload where
  id : Option NamespacedID
  policyID : Option String := none
  definitionID : Option String := none
  attributes : List (String × JsonVal) := []
  features : Option (List (String × Feature)) := none
  revision : Int := 0
deriving Repr

/-- `protocol.TopicPlaceholder`. -/
def topicPlaceholder : String := "_"

/-! ### things_storage.go operations.

Every operation is a pure function from the storage value (plus the wall
clock timestamp `now` for the operations that stamp the ledger) to its
result and the new storage value. -/

/-- `loadSystemThingData`: absent ledger key is reported as ErrThingNotFound. -/
def loadSystemThingData (st : Storage) (thingID : String) :
    Except StorageErr SystemThingData :=
  match alookup st.systems thingID with
  | some d => .ok d
  | none => .error .thingNotFound

/-- `updateSystemThingData` (the pure helper): bump the ledger revision and
stamp the modification time. -/
def updateSystemThingDataFn (d : SystemThingData) (now : String) : SystemThingData :=
  { d with revision := d.revision + 1, timestamp := now }

/-- The features stored for one thing (all keys under the `<thingID>§`
range); no stored key gives the empty range. -/
def storedFeatures (st : Storage) (thingID : String) : List (String × Feature) :=
  (alookup st.features thingID).getD []

/-- `putFeatureData`: store the feature record, drop the feature from
`deletedFeatures`, and increment its `unsynchronizedFeatures` counter. -/
def putFeatureData (acc : List (String × Feature) × SystemThingData)
    (featureID : String) (feature : Feature) :
    List (String × Feature) × SystemThingData :=
  let feats := aset acc.1 featureID feature
  let sys := acc.2
  let sys :=
    { sys with
        deletedFeatures := serase sys.deletedFeatures featureID,
        unsynchronizedFeatures :=
          aset sys.unsynchronizedFeatures featureID
            ((alookup sys.unsynchronizedFeatures featureID).getD 0 + 1) }
  (feats, sys)

/-- The ledger recomputation and the feature record accumulation performed
inside `persistThingData`: clear `unsynchronizedFeatures`, mark every
previously stored feature id as deleted, then apply `putFeatureData` for
every feature of the new payload. Returns the feature records to write and
the ledger value after the mutation. -/
def persistThingDataLedger (prevIDs : List String) (sys : SystemThingData)
    (newFeatures : List (String × Feature)) :
    List (String × Feature) × SystemThingData :=
  let sys :=
    { sys with
        unsynchronizedFeatures := [],
        deletedFeatures := prevIDs.foldl sinsert sys.deletedFeatures }
  let start : List (String × Feature) × SystemThingData := ([], sys)
  newFeatures.foldl (fun acc p => putFeatureData acc p.1 p.2) start

/-- `persistThingData`: recompute the ledger bookkeeping and write the thing
record, the ledger, and the features in one batch. The write replaces the
whole `<thingID>§` key range (`UpdateAllAs` first deletes every key with
that prefix), so the new feature range holds exactly the payload features. -/
def persistThingData (st : Storage) (thingData : ThingData)
    (sys : SystemThingData) (newFeatures : List (String × Feature)) : Storage :=
  let prevIDs := (storedFeatures st thingData.id).map Prod.fst
  let res := persistThingDataLedger prevIDs sys newFeatures
  { st with
      things := aset st.things thingData.id thingData,
      systems := aset st.systems thingData.id res.2,
      features := aset st.features thingData.id res.1 }

/-- `updateThingData`: refresh the persisted record from the payload; the
policy and definition ids are only overwritten when the payload sets them. -/
def updateThingData (old : ThingData) (thingID : String) (thing : ThingPayload) :
    ThingData :=
  { old with
      id := thingID,
      attributes := thing.attributes,
      policyID := (thing.policyID).getD old.policyID,
      definitionID := (thing.definitionID).getD old.definitionID }

/-- The ledger `AddThing` starts from: the stored one, or a fresh ledger at
the incoming revision minus one. -/
def addThingInitialSystem (st : Storage) (thingID : String) (incoming : Int) :
    SystemThingData :=
  match alookup st.systems thingID with
  | some s => s
  | none =>
      { id := thingID, revision := incoming - 1,
        deletedFeatures := [], unsynchronizedFeatures := [] }

/-- `AddThing`: validate the id, load or initialise the thing record and its
ledger (a fresh ledger starts at the incoming revision minus one), bump the
ledger once, recompute the ledger feature bookkeeping and persist
everything. Returns the ledger revision after the write. -/
def AddThing (st : Storage) (thing : ThingPayload) (now : String) :
    Except StorageErr (Int × Storage) :=
  match thing.id with
  | none => .error .invalidThing
  | some id =>
    if id.nspace = topicPlaceholder ∨ id.name = topicPlaceholder then
      .error .invalidThing
    else
      let thingID := id.render
      let thingData0 := (alookup st.things thingID).getD { id := thingID }
      let sys0 := addThingInitialSystem st thingID thing.revision
      let thingData1 := updateThingData thingData0 thingID thing
      let sys1 := updateSystemThingDataFn sys0 now
      let newFeatures := (thing.features).getD []
      let prevIDs := (storedFeatures st thingID).map Prod.fst
      let st1 := persistThingData st thingData1 sys1 newFeatures
      .ok ((persistThingDataLedger prevIDs sys1 newFeatures).2.revision, st1)

/-- The filled `model.Thing` returned by the storage getters: the thing
record plus the ledger owned `revision` and `timestamp` and (for `GetThing`)
the stored features. -/
structure ThingSnapshot where
  data : ThingData
  revision : Int := 0
  timestamp : String := ""
  features : List (String × Feature) := []
deriving Repr

/-- `GetThing`: requires the thing record; the ledger is loaded best effort
(`loadThingData` discards its error, leaving zero values), and the features
are all records of the `<thingID>§` key range. -/
def GetThing (st : Storage) (thingID : String) : Except StorageErr ThingSnapshot :=
  match alookup st.things thingID with
  | none => .error .thingNotFound
  | some td =>
    let snap : ThingSnapshot :=
      match alookup st.systems thingID with
      | some sys => { data := td, revision := sys.revision, timestamp := sys.timestamp }
      | none => { data := td }
    .ok { snap with features := storedFeatures st thingID }

/-- `GetThingData`: as `GetThing` but without the features. -/
def GetThingData (st : Storage) (thingID : String) : Except StorageErr ThingSnapshot :=
  match alookup st.things thingID with
  | none => .error .thingNotFound
  | some td =>
    match alookup st.systems thingID with
    | some sys => .ok { data := td, revision := sys.revision, timestamp := sys.timestamp }
    | none => .ok { data := td }

/-- `GetSystemThingData`. -/
def GetSystemThingData (st : Storage) (thingID : String) :
    Except StorageErr SystemThingData :=
  loadSystemThingData st thingID

/-- `GetFeature`: the thing must have a ledger, then the feature record must
exist in the `<thingID>§` range. -/
def GetFeature (st : Storage) (thingID featureID : String) :
    Except StorageErr Feature :=
  match loadSystemThingData st thingID with
  | .error e => .error e
  | .ok _ =>
    match alookup (storedFeatures st thingID) featureID with
    | some f => .ok f
    | none => .error .featureNotFound

/-- `persistFeature`: apply `putFeatureData` for the single feature and
write the feature record and the ledger (`SetAllAs`, keeping the other
features). Returns the new unsynchronized counter of the feature. -/
def persistFeature (st : Storage) (thingID featureID : String)
    (feature : Feature) (sys : SystemThingData) : Int × Storage :=
  let res := putFeatureData (storedFeatures st thingID, sys) featureID feature
  let st1 :=
    { st with
        systems := aset st.systems thingID res.2,
        features := aset st.features thingID res.1 }
  ((alookup res.2.unsynchronizedFeatures featureID).getD 0, st1)

/-- `AddFeature`: load and bump the ledger, then persist the feature. -/
def AddFeature (st : Storage) (thingID featureID : String)
    (feature : Feature) (now : String) : Except StorageErr (Int × Storage) :=
  match loadSystemThingData st thingID with
  | .error e => .error e
  | .ok sys => .ok (persistFeature st thingID featureID feature
      (updateSystemThingDataFn sys now))

/-- `RemoveFeature`: load and bump the ledger; if the feature record is
absent fail with ErrFeatureNotFound (nothing is written), otherwise delete
the record, mark the feature deleted, drop its unsynchronized counter and
write the ledger. -/
def RemoveFeature (st : Storage) (thingID featureID : String) (now : String) :
    Except StorageErr Storage :=
  match loadSystemThingData st thingID with
  | .error e => .error e
  | .ok sys =>
    let sys := updateSystemThingDataFn sys now
    let feats := storedFeatures st thingID
    if amem feats featureID then
      let sys :=
        { sys with
            deletedFeatures := sinsert sys.deletedFeatures featureID,
            unsynchronizedFeatures := aerase sys.unsynchronizedFeatures featureID }
      .ok { st with
              systems := aset st.systems thingID sys,
              features := aset st.features thingID (aerase feats featureID) }
    else
      .error .featureNotFound

/-- `RemoveThing`: requires the ledger, then deletes the thing record, the
whole feature range and the ledger. -/
def RemoveThing (st : Storage) (thingID : String) : Except StorageErr Storage :=
  match loadSystemThingData st thingID with
  | .error e => .error e
  | .ok _ =>
    .ok { st with
            things := aerase st.things thingID,
            systems := aerase st.systems thingID,
            features := aerase st.features thingID }

/-- `ThingSynchronized`: when the provided revision equals the ledger
revision, clear both ledger sets and persist; otherwise change nothing and
answer false. -/
def ThingSynchronized (st : Storage) (thingID : String) (revision : Int) :
    Except StorageErr (Bool × Storage) :=
  match loadSystemThingData st thingID with
  | .error e => .error e
  | .ok sys =>
    if revision = sys.revision then
      let sys := { sys with deletedFeatures := [], unsynchronizedFeatures := [] }
      .ok (true, { st with systems := aset st.systems thingID sys })
    else
      .ok (false, st)

/-- `FeatureSynchronized`: case split on the ledger exactly as in
things_storage.go. -/
def FeatureSynchronized (st : Storage) (thingID featureID : String)
    (revision : Int) : Except StorageErr (Bool × Storage) :=
  match loadSystemThingData st thingID with
  | .error e => .error e
  | .ok sys =>
    match alookup sys.unsynchronizedFeatures featureID with
    | none =>
      if smem sys.deletedFeatures featureID then
        let sys :=
          { sys with deletedFeatures := serase sys.deletedFeatures featureID }
        .ok (true, { st with systems := aset st.systems thingID sys })
      else
        .ok (true, st)
    | some rev =>
      if rev ≠ revision then
        .ok (false, st)
      else
        let sys :=
          { sys with
              unsynchronizedFeatures := aerase sys.unsynchronizedFeatures featureID }
        .ok (true, { st with systems := aset st.systems thingID sys })

/-! ### Protocol layer (`internal/protocol`).

`protocol.Topic` mirrors topic.go; the group, channel, criterion and action
components are Go typed strings that may hold arbitrary values after
parsing, so they are modelled as strings. -/

structure Topic where
  nspace : String := ""
  entityID : String := ""
  group : String := ""
  channel : String := ""
  criterion : String := ""
  action : String := ""
deriving Repr, DecidableEq

def groupThings : String := "things"
def channelTwin : String := "twin"
def criterionCommands : String := "commands"
def criterionEvents : String := "events"
def criterionErrors : String := "errors"
def actionModify : String := "modify"
def actionDelete : String := "delete"
def actionDeleted : String := "deleted"
def actionRetrieve : String := "retrieve"
def actionCreated : String := "created"

/-- `protocol.Headers`: a JSON decoded header map. Values are the decoded
JSON header values; lookups in the accessors type assert (a wrong type
panics in Go and never arises in the flows modelled here). -/
def Headers : Type := List (String × JsonVal)

def contentTypeDitto : String := "application/vnd.eclipse.ditto+json"

/-- `Headers.ResponseRequired`: true when absent, otherwise the stored
boolean value. -/
def responseRequired (h : Headers) : Bool :=
  match alookup h "response-required" with
  | some (JsonVal.bool b) => b
  | _ => true

/-- `Headers.WithResponseRequired`: true removes the header (true is the
default when absent), false stores the value false. -/
def withResponseRequired (h : Headers) (b : Bool) : Headers :=
  if b then aerase h "response-required" else aset h "response-required" (.bool false)

/-- `Headers.WithContentType` for a non empty content type. -/
def withContentType (h : Headers) (ct : String) : Headers :=
  if ct.length > 0 then aset h "content-type" (.str ct) else aerase h "content-type"

/-- `commands.ThingError` (the error payload record). -/
structure ThingError where
  status : Int
  error : String
  message : String
  description : String
deriving Repr, DecidableEq

/-- The dynamic envelope `value` (Go `interface{}`): either a raw JSON
payload, or one of the typed values the command handler stores in response
and event envelopes. The projected variants stand for the field selector
subset of the marshalled value (the gabs based projection is an external
library; the spec only relies on its contract). -/
inductive EnvValue where
  | raw (v : JsonVal)
  | thing (t : ThingSnapshot)
  | things (ts : List ThingSnapshot)
  | thingError (e : ThingError)
  | projectedThing (fields : String) (t : ThingSnapshot)
  | projectedThings (fields : String) (ts : List ThingSnapshot)
  | payload (p : ThingPayload)
  | feature (f : Feature)
  | props (m : Option (List (String × JsonVal)))
deriving Repr

/-- `protocol.Envelope`. Modelled from the spec: the envelope record with
topic, headers, path, fields, optional value, status, revision and
timestamp (the envelope source file is not under src; the spec defines the
wire record). -/
structure Envelope where
  topic : Topic
  headers : Headers := []
  path : String
  fields : String := ""
  value : Option EnvValue := none
  status : Int := 0
  revision : Int := 0
  timestamp : String := ""

/-! ### Command handler helpers (`internal/commands`). -/

def statusOK : Int := 200
def statusCreated : Int := 201
def statusModified : Int := 204
def statusDeleted : Int := 204

structure DeviceInfo where
  deviceID : String := ""
  tenantID : String := ""
  autoProvisioning : Bool := false

structure CommandOutput where
  response : Option Envelope := none
  event : Option Envelope := none
  invalidValueError : Bool := false
  thingID : String := ""
  featureID : String := ""
  revision : Int := 0

/-- `responseHeaders`: clone the command headers and clear
response-required. -/
def responseHeaders (cmdHeaders : Headers) : Headers :=
  withResponseRequired cmdHeaders false

def responseHeadersWithContent (cmdHeaders : Headers) : Headers :=
  withContentType (responseHeaders cmdHeaders) contentTypeDitto

/-- `errorEnvelope`: an errors criterion envelope at path `/` carrying the
error payload. -/
def errorEnvelope (cmd : Envelope) (value : ThingError) : Envelope :=
  { topic :=
      { nspace := cmd.topic.nspace, entityID := cmd.topic.entityID,
        group := groupThings, channel := channelTwin,
        criterion := criterionErrors },
    headers := responseHeadersWithContent cmd.headers,
    path := "/",
    status := value.status,
    value := some (.thingError value) }

/-- `NewThingNotFoundError` (status 404, `things:thing.notfound`). The Go
message quotes the thing ID with single quote characters. -/
def NewThingNotFoundError (cmd : Envelope) (thingID : String) : Envelope :=
  errorEnvelope cmd
    { status := 404, error := "things:thing.notfound",
      message := "The Thing with ID " ++ thingID ++ " could not be found.",
      description := "Check if the ID of your requested Thing was correct." }

/-- `NewIDInvalidError` (status 400, `things:id.invalid`). -/
def NewIDInvalidError (cmd : Envelope) (thingID : String) : Envelope :=
  errorEnvelope cmd
    { status := 400, error := "things:id.invalid",
      message := "Thing ID " ++ thingID ++ " is not valid!",
      description := "It must conform to the namespaced entity ID notation (see Ditto documentation)" }

/-- `NewInvalidJSONValueError` (status 400, `json.invalid`); the wrapped
error text is taken as a string. -/
def NewInvalidJSONValueError (cmd : Envelope) (jsonError : String) : Envelope :=
  errorEnvelope cmd
    { status := 400, error := "json.invalid",
      message := "Failed to parse command value: " ++ jsonError ++ ".",
      description := "Check if the JSON was valid and if it was in required format." }

/-- `NewInvalidFieldSelectorError` (status 400, `json.fieldselector.invalid`). -/
def NewInvalidFieldSelectorError (cmd : Envelope) (jsonError : String) : Envelope :=
  errorEnvelope cmd
    { status := 400, error := "json.fieldselector.invalid",
      message := "Invalid field selector: " ++ jsonError ++ ".",
      description := "Check fields syntax." }

/-- `responseEnvelope`: a plain status response, only when the command
requires a response. -/
def responseEnvelope (cmd : Envelope) (status : Int) : Option Envelope :=
  if responseRequired cmd.headers then
    some { topic := cmd.topic, path := cmd.path, status := status,
           headers := responseHeaders cmd.headers }
  else
    none

/-- `ResponseEnvelopeWithValue`: a response with a value (and the ditto
content type), only when the command requires a response. -/
def ResponseEnvelopeWithValue (cmd : Envelope) (status : Int) (value : EnvValue) :
    Option Envelope :=
  if responseRequired cmd.headers then
    some { topic := cmd.topic, path := cmd.path, fields := cmd.fields,
           status := status,
           headers := responseHeadersWithContent cmd.headers,
           value := some value }
  else
    none

/-- `eventTopic`: same topic with the events criterion and the event
action. -/
def eventTopic (topic : Topic) (action : String) : Topic :=
  { topic with criterion := criterionEvents, action := action }

/-- `eventEnvelope`: the local event mirrors the command path, carries the
post write ledger revision and timestamp, and (except for deleted events)
the command value with the ditto content type. -/
def eventEnvelope (cmd : Envelope) (revision : Int) (timestamp : String)
    (action : String) : Envelope :=
  if action ≠ actionDeleted then
    { topic := eventTopic cmd.topic action, path := cmd.path,
      revision := revision, timestamp := timestamp,
      headers := responseHeadersWithContent cmd.headers,
      value := cmd.value }
  else
    { topic := eventTopic cmd.topic action, path := cmd.path,
      revision := revision, timestamp := timestamp,
      headers := responseHeaders cmd.headers }

/-- `eventThingCreatedEnvelope`: the created event at path `/` carrying the
created thing. -/
def eventThingCreatedEnvelope (cmd : Envelope) (action : String)
    (thing : ThingPayload) : Envelope :=
  { topic := eventTopic cmd.topic action, path := "/",
    revision := thing.revision, timestamp := "",
    headers := responseHeadersWithContent cmd.headers,
    value := some (.payload thing) }

/-! ### JSON field selector (`internal/jsonutil/json_field_selector.go`).

The selector compiler is recursive on substrings of the selector; the
recursion is expressed with an explicit fuel argument (the public entry
point passes the selector length, which bounds the parenthesis nesting
depth). -/

/-- Go `strings.Split(s, sep)` for a one character separator: the chunks
between the occurrences of the character; never empty (an input without the
character yields the input as its only chunk). -/
def splitCharList (c : Char) : List Char → List Char → List String
  | [], acc => [String.mk acc]
  | x :: rest, acc =>
      if x = c then String.mk acc :: splitCharList c rest []
      else splitCharList c rest (acc ++ [x])

def splitChar (c : Char) (s : String) : List String :=
  splitCharList c s.data []

/-- Go `strings.Contains(s, c)` for a one character substring. -/
def containsChar (s : String) (c : Char) : Bool :=
  s.data.any (fun x => x = c)

def countChar (s : String) (c : Char) : Nat :=
  (s.data.filter (fun x => x == c)).length

/-- `validateJSONFieldSelector`: balanced amount of parentheses. -/
def validateJSONFieldSelector (field : String) : Bool :=
  countChar field '(' == countChar field ')'

def addUnique (slice : List String) (elem : String) : List String :=
  if slice.contains elem then slice else slice ++ [elem]

/-- The character loop of `innerSelectors`: split on top level commas,
treating parenthesised runs as opaque. -/
def innerSelectorsLoop : List Char → Nat → List Char → List String → List String
  | [], _, sb, children => addUnique children (String.mk sb)
  | c :: rest, cnt, sb, children =>
    if c = '(' then innerSelectorsLoop rest (cnt + 1) (sb ++ [c]) children
    else if cnt > 0 then
      if c = ')' then innerSelectorsLoop rest (cnt - 1) (sb ++ [c]) children
      else innerSelectorsLoop rest cnt (sb ++ [c]) children
    else if c = ',' then innerSelectorsLoop rest 0 [] (addUnique children (String.mk sb))
    else innerSelectorsLoop rest cnt (sb ++ [c]) children

/-- `innerSelectors`: first level inner selectors of a selector string. -/
def innerSelectors (parent : String) : List String :=
  if validateJSONFieldSelector parent then innerSelectorsLoop parent.data 0 [] []
  else []

def nodePath (root inner : String) : String :=
  root ++ "/" ++ inner

/-- `strings.SplitN(s, c, 2)`: the part before the first occurrence and the
rest, or nothing when the character does not occur. -/
def splitFirstAux (c : Char) : List Char → List Char → Option (String × String)
  | [], _ => none
  | x :: rest, acc =>
      if x = c then some (String.mk acc, String.mk rest)
      else splitFirstAux c rest (acc ++ [x])

def splitFirst (s : String) (c : Char) : Option (String × String) :=
  splitFirstAux c s.data []

/-- The parent chain built by the `ensureMostInnerFields` node loop: for
every node except the last, when the node is non empty the accumulated
parent path is recorded for deletion. -/
def parentsLoop : List String → Nat → Nat → String → List String
  | [], _, _, _ => []
  | n :: rest, i, last, parent =>
      if i ≠ last ∧ n ≠ "" then
        let parent' := if i = 0 then n else nodePath parent n
        parent' :: parentsLoop rest (i + 1) last parent'
      else
        parentsLoop rest (i + 1) last parent

def parentsOf (field : String) : List String :=
  let nodes := splitChar '/' field
  parentsLoop nodes 0 (nodes.length - 1) ""

def deleteParents (field : String) (cur : List String) : List String :=
  (parentsOf field).foldl serase cur

/-- The map iteration of `ensureMostInnerFields`: visit every key of the
snapshot that is still present (a Go map range does not visit entries
deleted before their turn) and delete its parent chain. -/
def emiLoop : List String → List String → List String
  | [], cur => cur
  | f :: rest, cur =>
      if smem cur f then emiLoop rest (deleteParents f cur)
      else emiLoop rest cur

/-- `ensureMostInnerFields`, on the key list of the pointers map. -/
def ensureMostInnerFields (keys : List String) : List String :=
  emiLoop keys keys

/-- The body of `flattenToJSONPointers`, parameterised by the flattener for
common selectors: collect the pointers of every raw selector into the
pointers map (insertion keeps keys unique), apply `ensureMostInnerFields`
and keep the non empty keys. -/
def flattenPtrsWith (g : String → List String) (rawSelectors : List String) :
    List String :=
  let m := rawSelectors.foldl
    (fun acc sel =>
      if containsChar sel '(' then (g sel).foldl addUnique acc
      else addUnique acc sel)
    []
  (ensureMostInnerFields m).filter (fun k => k != "")

/-- `flattenCommonSelectorToJSONPointers`: resolve one selector of the form
`root(expr)` to pointers. The split at the first parenthesis is guaranteed
to succeed by the call sites (the selector contains a parenthesis). -/
def flattenCommonF : Nat → String → List String
  | 0, _ => []
  | Nat.succ fuel, s =>
    match splitFirst s '(' with
    | none => []
    | some (root, rest) =>
      if rest.length = 0 then []
      else
        let strW := String.mk (rest.data.take (rest.data.length - 1))
        let innerPaths := flattenPtrsWith (flattenCommonF fuel) (innerSelectors strW)
        let hasRoot := root.length > 0
        if innerPaths.length = 0 then
          if hasRoot then [root] else []
        else
          innerPaths.foldl
            (fun acc path =>
              if path.length > 0 then
                if hasRoot then acc ++ [nodePath root path] else acc ++ [path]
              else acc)
            []

/-- `flattenToJSONPointers` with recursion fuel (the source recursion
terminates because each inner selector is strictly shorter). -/
def flattenPtrsF (fuel : Nat) (rawSelectors : List String) : List String :=
  flattenPtrsWith (flattenCommonF fuel) rawSelectors

/-- `SelectorToJSONPointers`: validate, split, flatten, and root every
pointer at `/`. -/
def SelectorToJSONPointers (selector : String) : Except Unit (List String) :=
  if validateJSONFieldSelector selector then
    .ok ((flattenPtrsF selector.length (innerSelectors selector)).map
          (fun next => nodePath "" next))
  else
    .error ()

/-! ### Timeout header parsing (protocol headers implementation).

Durations are Go `time.Duration` values: int64 nanosecond counts whose
arithmetic wraps around; the wrap is modelled explicitly. Go indexes the
timeout string by byte; the model indexes by character, which agrees on the
ASCII data the parser accepts. A Go run time panic is modelled as
`GoResult.panicked`. -/

/-- The result of running a Go function that can panic. -/
inductive GoResult (α : Type) where
  | panicked
  | value (a : α)
deriving Repr, DecidableEq

def two63 : Int := 9223372036854775808
def two64 : Int := 18446744073709551616

/-- Wrap an integer into the int64 value range. -/
def wrap64 (n : Int) : Int :=
  (n + two63) % two64 - two63

/-- Go int64 multiplication. -/
def i64mul (a b : Int) : Int :=
  wrap64 (a * b)

def durMillisecond : Int := 1000000
def durSecond : Int := 1000000000
def durMinute : Int := 60000000000
def durHour : Int := 3600000000000

/-- `strconv.Atoi`: optional sign, at least one digit, int64 range. -/
def atoi (s : String) : Option Int :=
  let p : List Char × Int :=
    match s.data with
    | '+' :: rest => (rest, 1)
    | '-' :: rest => (rest, -1)
    | rest => (rest, 1)
  if p.1 ≠ [] ∧ p.1.all Char.isDigit then
    let v : Int := p.2 * (p.1.foldl (fun n c => n * 10 + (c.toNat - 48)) 0 : Nat)
    if -two63 ≤ v ∧ v < two63 then some v else none
  else none

def inTimeoutRange (timeout : Int) : Bool :=
  0 ≤ timeout ∧ timeout < durHour

/-- `parseTimeout`: strip a trailing `m`, `ms` or `s` unit (no unit means
seconds), convert with Go duration multiplication, and require the result
in range; any failure leaves the sentinel `-1` which is out of range. When
the string is exactly `"s"` the unit check reads `timeout[l-2]` with
`l = 1`, which panics with an index out of range. -/
def parseTimeout (timeout : String) : GoResult (Option Int) :=
  let cs := timeout.data
  let l := cs.length
  if l > 0 then
    let conv : GoResult Int :=
      match cs.getD (l - 1) ' ' with
      | 'm' =>
        match atoi (String.mk (cs.take (l - 1))) with
        | some i => .value (i64mul i durMinute)
        | none => .value (-1)
      | 's' =>
        if l < 2 then .panicked
        else if cs.getD (l - 2) ' ' = 'm' then
          match atoi (String.mk (cs.take (l - 2))) with
          | some i => .value (i64mul i durMillisecond)
          | none => .value (-1)
        else
          match atoi (String.mk (cs.take (l - 1))) with
          | some i => .value (i64mul i durSecond)
          | none => .value (-1)
      | _ =>
        match atoi timeout with
        | some i => .value (i64mul i durSecond)
        | none => .value (-1)
    match conv with
    | .panicked => .panicked
    | .value t => .value (if inTimeoutRange t then some t else none)
  else
    .value none

/-- `Headers.Timeout()`: the parsed `timeout` header or 60 seconds when the
header is absent or does not parse. A non string header value panics on the
Go type assertion. -/
def headersTimeout (h : Headers) : GoResult Int :=
  match alookup h "timeout" with
  | some (JsonVal.str s) =>
    match parseTimeout s with
    | .panicked => .panicked
    | .value (some d) => .value d
    | .value none => .value (60 * durSecond)
  | some _ => .panicked
  | none => .value (60 * durSecond)

def hasUpper (k : String) : Bool :=
  k.data.any fun c => 'A' ≤ c ∧ c ≤ 'Z'

/-- The key lowering loop of `Headers.UnmarshalJSON`: every key holding an
upper case letter is removed and re added lowered (modelled in list order;
the net effect of the Go map loop does not depend on the order). -/
def lowercaseKeys (fields : List (String × JsonVal)) : List (String × JsonVal) :=
  fields.foldl
    (fun acc p => if hasUpper p.1 then aset (aerase acc p.1) p.1.toLower p.2 else acc)
    fields

/-- `Headers.UnmarshalJSON` on an already decoded JSON value: requires a
JSON object (or null, which decodes to an empty map), lowers the keys, and
rejects the data when a present `timeout` header does not parse; a non
string timeout value panics on the type assertion. `value none` is the
returned unmarshalling error. -/
def headersUnmarshalJSON (v : JsonVal) : GoResult (Option Headers) :=
  match v with
  | .null => .value (some [])
  | .obj fields =>
    let m := lowercaseKeys fields
    (match alookup m "timeout" with
     | some (JsonVal.str s) =>
       match parseTimeout s with
       | .panicked => .panicked
       | .value none => .value none
       | .value (some _) => .value (some m)
     | some _ => .panicked
     | none => .value (some m))
  | _ => .value none

/-! ### Topic parsing (`internal/protocol/topic.go`). -/

def validSegmentChar (c : Char) : Bool :=
  c.isAlpha || c.isDigit || c = '_' || c = '-'

/-- Modelled from the spec: the namespace grammar of `model.NamespacedID`
(the model package is not under src): dot separated non empty segments of
ASCII letters, digits, underscore and dash. -/
def validNamespace (ns : String) : Bool :=
  (splitChar '.' ns).all fun seg => seg ≠ "" && seg.data.all validSegmentChar

/-- Modelled from the spec: a thing name is any non empty string free of
the reserved separator. -/
def validEntityName (n : String) : Bool :=
  n.length > 0 && n.data.all (fun c => c ≠ '§')

/-- Modelled from the spec: `model.NewNamespacedID` returns nil on an
invalid namespace or name. -/
def newNamespacedID (ns name : String) : Option NamespacedID :=
  if validNamespace ns && validEntityName name then some ⟨ns, name⟩ else none

/-- Modelled from the spec: `model.NewNamespacedIDFrom` parses the
canonical `namespace:name` form. -/
def namespacedIDFrom (s : String) : Option NamespacedID :=
  match splitFirst s ':' with
  | some (ns, name) => newNamespacedID ns name
  | none => none

/-- `validateNamespacedID` of topic.go: a placeholder namespace is allowed,
and with it a placeholder entity name; otherwise the parts must form a
valid namespaced id (the entity name is checked against the fixed
namespace `ns` when the namespace is the placeholder). -/
def validateTopicNamespacedID (ns entityID : String) : Bool :=
  if ns = topicPlaceholder then
    if entityID = topicPlaceholder then true
    else (newNamespacedID "ns" entityID).isSome
  else (newNamespacedID ns entityID).isSome

/-- `Topic.UnmarshalJSON` on the decoded topic string: split on `/` and
index the segments; every segment access is modelled with its bounds check,
an out of range access is `GoResult.panicked`. `value none` is the returned
unmarshalling error. -/
def topicUnmarshal (v : String) : GoResult (Option Topic) :=
  let elements := splitChar '/' v
  let ns := elements.getD 0 ""
  if elements.length < 2 then .panicked
  else
    let id := elements.getD 1 ""
    if ¬ validateTopicNamespacedID ns id then .value none
    else if elements.length < 3 then .panicked
    else
      let group := elements.getD 2 ""
      if group = groupThings then
        if elements.length < 4 then .panicked
        else
          let channel := elements.getD 3 ""
          if elements.length < 5 then .panicked
          else
            let criterion := elements.getD 4 ""
            let action := if 4 < elements.length - 1 then elements.getD 5 "" else ""
            .value (some { nspace := ns, entityID := id, group := group,
                           channel := channel, criterion := criterion,
                           action := action })
      else
        if elements.length < 4 then .panicked
        else
          let criterion := elements.getD 3 ""
          let action := if 3 < elements.length - 1 then elements.getD 4 "" else ""
          .value (some { nspace := ns, entityID := id, group := group,
                         channel := "", criterion := criterion,
                         action := action })

/-! ### Command functions (`internal/commands/thing.go`, `features.go`).

Each command function takes the storage as explicit state and additionally
returns the list of locally published events produced on the way
(auto provisioning publishes a created event). The wall clock is the
explicit `now` argument of the mutating paths. -/

/-- `NewFeatureNotFoundError` (status 404, `things:feature.notfound`). -/
def NewFeatureNotFoundError (cmd : Envelope) (thingID featureID : String) :
    Envelope :=
  errorEnvelope cmd
    { status := 404, error := "things:feature.notfound",
      message := "The Feature with ID " ++ featureID ++ " on the Thing with ID "
        ++ thingID ++ " could not be found.",
      description := "Check if the ID of the Thing and the ID of your requested Feature was correct." }

/-- `Handler.resourceNotFound`: only with response required; thing not
found maps to the thing error, anything else to the feature error. -/
def resourceNotFound (cmd : Envelope) (err : StorageErr)
    (thingID featureID : String) : Option Envelope :=
  if responseRequired cmd.headers then
    if err = .thingNotFound then some (NewThingNotFoundError cmd thingID)
    else some (NewFeatureNotFoundError cmd thingID featureID)
  else none

/-- `Handler.thingNotFound`. -/
def thingNotFound (cmd : Envelope) (thingID : String) : Option Envelope :=
  if responseRequired cmd.headers then some (NewThingNotFoundError cmd thingID)
  else none

/-- `Handler.invalidFieldSelector`. -/
def invalidFieldSelector (cmd : Envelope) (errText : String) : Option Envelope :=
  if responseRequired cmd.headers then
    some (NewInvalidFieldSelectorError cmd errText)
  else none

/-- `autoprovisionThing`: store an empty thing with the topic id and
publish a created event; the returned thing is the payload (zero revision
and timestamp). -/
def autoprovisionThing (st : Storage) (cmd : Envelope) (thingID : String)
    (now : String) : Except StorageErr (ThingSnapshot × Storage × List Envelope) :=
  let payload : ThingPayload := { id := namespacedIDFrom thingID }
  match AddThing st payload now with
  | .error e => .error e
  | .ok (_, st1) =>
    .ok ({ data := { id := thingID } }, st1,
         [eventThingCreatedEnvelope cmd actionCreated payload])

/-- `Handler.LoadThing`: load the persisted thing; on thing not found with
auto provisioning enabled, create it transparently. -/
def LoadThing (dev : DeviceInfo) (st : Storage) (thingID : String)
    (cmd : Envelope) (now : String) :
    Except StorageErr (ThingSnapshot × Storage × List Envelope) :=
  match GetThing st thingID with
  | .ok t => .ok (t, st, [])
  | .error e =>
    if dev.autoProvisioning ∧ e = .thingNotFound then
      autoprovisionThing st cmd thingID now
    else
      .error e

/-- `deleteThing`: answer 204 and emit a deleted event carrying the current
ledger revision and timestamp; the stored thing is not touched. -/
def deleteThing (dev : DeviceInfo) (st : Storage) (thingID : String)
    (cmd : Envelope) (now : String) : CommandOutput × Storage × List Envelope :=
  match LoadThing dev st thingID cmd now with
  | .error e =>
    ({ response := resourceNotFound cmd e thingID "" }, st, [])
  | .ok (thing, st1, evs) =>
    ({ response := responseEnvelope cmd statusDeleted,
       event := some (eventEnvelope cmd thing.revision thing.timestamp actionDeleted) },
     st1, evs)

/-- `json.Unmarshal` of a decoded JSON value into `map[string][]string`:
requires an object (or null, decoding to a nil map) whose values are
string arrays or null. -/
def jsonToStringsMap (v : JsonVal) : Option (List (String × List String)) :=
  match v with
  | .null => some []
  | .obj fields =>
    fields.foldr
      (fun p acc =>
        match acc with
        | none => none
        | some m =>
          match p.2 with
          | .null => some ((p.1, []) :: m)
          | .arr elems =>
            let strs := elems.foldr
              (fun e acc2 =>
                match acc2, e with
                | some l, JsonVal.str s => some (s :: l)
                | _, _ => none)
              (some [])
            match strs with
            | some l => some ((p.1, l) :: m)
            | none => none
          | _ => none)
      (some [])
  | _ => none

/-- `Handler.responseEnvelopeWithFieldsArr`: an invalid selector answers
the field selector error, otherwise the 200 response carries the projected
array. -/
def responseEnvelopeWithFieldsArr (cmd : Envelope) (things : List ThingSnapshot) :
    Option Envelope :=
  match SelectorToJSONPointers cmd.fields with
  | .error _ => invalidFieldSelector cmd "unbalanced parentheses"
  | .ok _ => ResponseEnvelopeWithValue cmd statusOK (.projectedThings cmd.fields things)

/-- `Handler.responseEnvelopeWithFields` (single thing). -/
def responseEnvelopeWithFields (cmd : Envelope) (thing : ThingSnapshot) :
    Option Envelope :=
  match SelectorToJSONPointers cmd.fields with
  | .error _ => invalidFieldSelector cmd "unbalanced parentheses"
  | .ok _ => ResponseEnvelopeWithValue cmd statusOK (.projectedThing cmd.fields thing)

/-- The loop of `doRetrieveThings`: an id without a colon answers the id
invalid error at once; ids whose things are unknown are skipped. -/
def doRetrieveThingsLoop (st : Storage) (cmd : Envelope) :
    List String → List ThingSnapshot → Option Envelope
  | [], acc =>
    if cmd.fields.length = 0 then
      ResponseEnvelopeWithValue cmd statusOK (.things acc)
    else
      responseEnvelopeWithFieldsArr cmd acc
  | thingID :: rest, acc =>
    if ¬ containsChar thingID ':' then some (NewIDInvalidError cmd thingID)
    else
      match GetThing st thingID with
      | .ok t => doRetrieveThingsLoop st cmd rest (acc ++ [t])
      | .error _ => doRetrieveThingsLoop st cmd rest acc

def doRetrieveThings (st : Storage) (cmd : Envelope) (thingIds : List String) :
    Option Envelope :=
  doRetrieveThingsLoop st cmd thingIds []

/-- `retrieveThings` (the wildcard batch retrieve): the command value must
decode into a map with a non empty `thingIds` list. -/
def retrieveThings (st : Storage) (cmd : Envelope) : Option Envelope :=
  match cmd.value with
  | some (.raw v) =>
    match jsonToStringsMap v with
    | none => some (NewInvalidJSONValueError cmd "unmarshal error")
    | some m =>
      let thingIds := (alookup m "thingIds").getD []
      if thingIds.length = 0 then
        some (NewInvalidJSONValueError cmd "Empty thingIds value")
      else
        doRetrieveThings st cmd thingIds
  | _ => some (NewInvalidJSONValueError cmd "unmarshal error")

/-- `retrieveThing`: wildcard topics delegate to the batch retrieve;
otherwise load and answer the thing, optionally through the field
selector. -/
def retrieveThing (st : Storage) (thingID : String) (cmd : Envelope) :
    Option Envelope :=
  if cmd.topic.nspace = topicPlaceholder ∨ cmd.topic.entityID = topicPlaceholder then
    retrieveThings st cmd
  else
    match GetThing st thingID with
    | .error _ => thingNotFound cmd thingID
    | .ok thing =>
      if cmd.fields.length = 0 then
        ResponseEnvelopeWithValue cmd statusOK (.thing thing)
      else
        responseEnvelopeWithFields cmd thing

/-- `cmdWithNoResponseRequired`: clone the command headers and set
response-required to false on the forwarded copy. -/
def cmdWithNoResponseRequired (command : Envelope) : Envelope :=
  { command with headers := withResponseRequired command.headers false }

/-- The upstream message selection of `publishCommandToHono`: only when a
response exists and the action is retrieve the clone with the cleared
response-required flag is forwarded; otherwise the original message goes
out unchanged. -/
def forwardedCommand (command : Envelope) (output : CommandOutput) : Envelope :=
  if output.response.isSome then
    if command.topic.action = actionRetrieve then cmdWithNoResponseRequired command
    else command
  else command

/-- `Handler.resourceSynchronized`: after a successful upstream forward,
mark the touched resource synchronized using the hints of the command
output; without a thing id hint nothing happens. -/
def resourceSynchronized (st : Storage) (output : CommandOutput) : Storage :=
  if output.thingID.length = 0 then st
  else if output.featureID.length > 0 then
    match FeatureSynchronized st output.thingID output.featureID output.revision with
    | .ok (_, st1) => st1
    | .error _ => st
  else
    match ThingSynchronized st output.thingID output.revision with
    | .ok (_, st1) => st1
    | .error _ => st

/-! ### Synchronizer (`internal/sync/synchronizer.go`). -/

/-- A `things.Command` rendered to its envelope parts. Modelled from the
spec: the protocol/things command builder is not under src; a feature
modify command addresses `/features/<featureID>` and a feature properties
modify command `/features/<featureID>/properties`, both on the things twin
commands topic of the thing. -/
structure ThingsCommand where
  topic : Topic
  path : String
  value : Option EnvValue
deriving Repr

def thingsCommandTopic (thingID : NamespacedID) (action : String) : Topic :=
  { nspace := thingID.nspace, entityID := thingID.name, group := groupThings,
    channel := channelTwin, criterion := criterionCommands, action := action }

/-- Modelled from the spec: `things.NewCommand(id).Feature(f).Modify(v)`. -/
def thingsModifyFeature (thingID : NamespacedID) (featureID : String)
    (f : Feature) : ThingsCommand :=
  { topic := thingsCommandTopic thingID actionModify,
    path := "/features/" ++ featureID,
    value := some (.feature f) }

/-- Modelled from the spec:
`things.NewCommand(id).FeatureProperties(f).Modify(props)`. -/
def thingsModifyFeatureProperties (thingID : NamespacedID) (featureID : String)
    (props : Option (List (String × JsonVal))) : ThingsCommand :=
  { topic := thingsCommandTopic thingID actionModify,
    path := "/features/" ++ featureID ++ "/properties",
    value := some (.props props) }

/-- Go `len` of an optional map: a nil map has length zero. -/
def goMapLen (m : Option (List (String × JsonVal))) : Nat :=
  match m with
  | none => 0
  | some l => l.length

/-- `featureSyncCmd`: without desired properties the whole feature is
re told through a feature modify; with desired properties only the
properties map is pushed. -/
def featureSyncCmd (thingID : NamespacedID) (featureID : String)
    (thingFeature : Feature) : ThingsCommand :=
  if goMapLen thingFeature.desiredProperties = 0 then
    thingsModifyFeature thingID featureID thingFeature
  else
    thingsModifyFeatureProperties thingID featureID thingFeature.properties

/-! ### Stated properties. -/

/-- The storage with the ledger of one thing replaced. -/
def stWithSystem (st : Storage) (thingID : String) (sys : SystemThingData) :
    Storage :=
  { st with systems := aset st.systems thingID sys }

/-- The ledger with one deleted feature entry cleared. -/
def sysClearDeleted (sys : SystemThingData) (featureID : String) :
    SystemThingData :=
  { sys with deletedFeatures := serase sys.deletedFeatures featureID }

/-- The ledger with one unsynchronized feature entry cleared. -/
def sysClearUnsync (sys : SystemThingData) (featureID : String) :
    SystemThingData :=
  { sys with unsynchronizedFeatures := aerase sys.unsynchronizedFeatures featureID }

/-- The ledger disjointness property of one `SystemThingData`: no feature
id is both unsynchronized and deleted. -/
def LedgerDisjoint (sys : SystemThingData) : Prop :=
  ∀ f, (alookup sys.unsynchronizedFeatures f).isSome = true →
    smem sys.deletedFeatures f = false

/-- Every persisted ledger of the storage satisfies `LedgerDisjoint`. -/
def StorageDisjoint (st : Storage) : Prop :=
  ∀ id sys, alookup st.systems id = some sys → LedgerDisjoint sys

/-- Left fold of `nodePath`, describing the parent accumulation of
`parentsLoop`. -/
def joinFrom (parent : String) (l : List String) : String :=
  l.foldl nodePath parent

/-- Slash join of a non empty node list (the inverse of `splitChar` on
`/`). -/
def joinSlash : List String → String
  | [] => ""
  | [x] => x
  | x :: rest => x ++ "/" ++ joinSlash rest

/-! ### Concrete example values used by witnesses and counterexamples. -/

def exID : NamespacedID := ⟨"org.eclipse.kanto", "test"⟩

def exThingID : String := "org.eclipse.kanto:test"

def exFeature : Feature :=
  { properties := some [("x", JsonVal.num 12), ("y", JsonVal.num 5)] }

def exFeatureDesired : Feature :=
  { properties := some [("x", JsonVal.num 12)],
    desiredProperties := some [("t", JsonVal.num 7)] }

def exPayload : ThingPayload :=
  { id := some exID, revision := 1, features := some [("meter", exFeature)] }

/-- The storage holding exactly `exPayload` (the AddThing result on the
empty storage). -/
def exSt : Storage :=
  { things := [(exThingID, { id := exThingID })],
    systems := [(exThingID,
      { id := exThingID, revision := 1, timestamp := "t0",
        deletedFeatures := [], unsynchronizedFeatures := [("meter", 1)] })],
    features := [(exThingID, [("meter", exFeature)])] }

/-- A ledger exercising all `FeatureSynchronized` cases. -/
def exSys : SystemThingData :=
  { id := exThingID, revision := 4, timestamp := "t1",
    deletedFeatures := ["gone"], unsynchronizedFeatures := [("meter", 2)] }

def exStLedger : Storage :=
  { things := [(exThingID, { id := exThingID })],
    systems := [(exThingID, exSys)],
    features := [(exThingID, [("meter", exFeature)])] }

def exDev : DeviceInfo := { deviceID := exThingID, tenantID := "tenant" }

/-- A delete thing command envelope (response required by default). -/
def exDeleteCmd : Envelope :=
  { topic := { nspace := "org.eclipse.kanto", entityID := "test",
               group := groupThings, channel := channelTwin,
               criterion := criterionCommands, action := actionDelete },
    headers := [("correlation-id", JsonVal.str "c1")],
    path := "/" }

/-- A wildcard batch retrieve command envelope. -/
def exRetrieveCmd (value : Option EnvValue) : Envelope :=
  { topic := { nspace := topicPlaceholder, entityID := topicPlaceholder,
               group := groupThings, channel := channelTwin,
               criterion := criterionCommands, action := actionRetrieve },
    headers := [],
    path := "/",
    value := value }

/-- The snapshot `GetThing` returns for `exSt`. -/
def exSnapshot : ThingSnapshot :=
  { data := { id := exThingID }, revision := 1, timestamp := "t0",
    features := [("meter", exFeature)] }

/-! ## Theorems

First the shared lemmas about the Go map and set models, then one theorem
per claim (with its witness or counterexample). -/

theorem alookup_aset {β : Type} (m : List (String × β)) (k : String) (v : β)
    (k' : String) :
    alookup (aset m k v) k' = if k = k' then some v else alookup m k' := by
  induction m with
  | nil => simp [aset, alookup]
  | cons p rest ih =>
    obtain ⟨pk, pv⟩ := p
    simp only [aset]
    by_cases h : pk = k
    · subst h
      by_cases h2 : pk = k'
      · simp [alookup, h2]
      · simp [alookup, h2]
    · simp only [if_neg h, alookup, ih]
      by_cases h2 : pk = k'
      · have hk : ¬ k = k' := fun he => h (h2.trans he.symm)
        simp [h2, hk]
      · simp [h2]

theorem alookup_aerase {β : Type} (m : List (String × β)) (k k' : String) :
    alookup (aerase m k) k' = if k = k' then none else alookup m k' := by
  induction m with
  | nil => simp [aerase, alookup]
  | cons p rest ih =>
    obtain ⟨pk, pv⟩ := p
    simp only [aerase]
    by_cases h : pk = k
    · subst h
      rw [if_pos rfl, ih]
      by_cases h2 : pk = k'
      · simp [h2]
      · simp [h2, alookup]
    · rw [if_neg h]
      simp only [alookup, ih]
      by_cases h2 : pk = k'
      · have hk : ¬ k = k' := fun he => h (h2.trans he.symm)
        simp [h2, hk]
      · simp [h2]

theorem smem_serase (s : List String) (k k' : String) :
    smem (serase s k) k' = (smem s k' && k' != k) := by
  induction s with
  | nil => simp [serase, smem]
  | cons x rest ih =>
    simp only [serase]
    by_cases h : x = k
    · subst h
      rw [if_pos rfl, ih]
      by_cases h2 : x = k'
      · subst h2
        simp [smem]
      · simp [smem, h2]
    · rw [if_neg h]
      simp only [smem, ih]
      by_cases h2 : x = k'
      · subst h2
        have : (x != k) = true := bne_iff_ne.mpr h
        simp [this]
      · simp [h2]

theorem smem_append (s : List String) (x k : String) :
    smem (s ++ [x]) k = (smem s k || x = k) := by
  induction s with
  | nil => simp [smem]
  | cons y rest ih =>
    by_cases h : y = k
    · simp [smem, h]
    · simp [smem, h, ih]

theorem smem_sinsert (s : List String) (k k' : String) :
    smem (sinsert s k) k' = (smem s k' || k = k') := by
  unfold sinsert
  by_cases h : smem s k
  · simp only [h, if_pos]
    by_cases h2 : k = k'
    · subst h2; simp [h]
    · simp [h2]
  · simp only [h, if_neg, Bool.false_eq_true, not_false_iff]
    rw [smem_append]

theorem smem_foldl_sinsert (l : List String) (s : List String) (k : String) :
    smem (l.foldl sinsert s) k = (smem s k || smem l k) := by
  induction l generalizing s with
  | nil => simp [smem]
  | cons x rest ih =>
    simp only [List.foldl_cons, ih, smem_sinsert, smem]
    by_cases h : x = k
    · simp [h]
    · simp [h]

/-- C3: `FeatureSynchronized(thingID, featureID, revision)` on an existing
thing behaves exactly by the four ledger cases: a feature that is not
unsynchronized but deleted has its deleted entry cleared and true is
returned; a feature in neither set changes nothing and true is returned; a
feature with unsynchronized counter c yields false and an unchanged ledger
when revision differs from c, and has its unsynchronized entry cleared
with true returned when revision equals c. -/
theorem featureSynchronized_ledger_cases (st : Storage) (sys : SystemThingData)
    (thingID featureID : String) (revision : Int)
    (h : alookup st.systems thingID = some sys) :
    (alookup sys.unsynchronizedFeatures featureID = none →
      ((smem sys.deletedFeatures featureID = true →
          FeatureSynchronized st thingID featureID revision =
            .ok (true, stWithSystem st thingID (sysClearDeleted sys featureID))) ∧
        (smem sys.deletedFeatures featureID = false →
          FeatureSynchronized st thingID featureID revision = .ok (true, st)))) ∧
    (∀ c, alookup sys.unsynchronizedFeatures featureID = some c →
      ((revision ≠ c →
          FeatureSynchronized st thingID featureID revision = .ok (false, st)) ∧
        (revision = c →
          FeatureSynchronized st thingID featureID revision =
            .ok (true, stWithSystem st thingID (sysClearUnsync sys featureID))))) := by
  constructor
  · intro hu
    constructor
    · intro hd
      simp [FeatureSynchronized, loadSystemThingData, h, hu, hd, stWithSystem,
        sysClearDeleted]
    · intro hd
      simp [FeatureSynchronized, loadSystemThingData, h, hu, hd]
  · intro c hu
    constructor
    · intro hne
      have hne2 : ¬ (c = revision) := fun he => hne he.symm
      simp [FeatureSynchronized, loadSystemThingData, h, hu, hne2]
    · intro heq
      subst heq
      simp [FeatureSynchronized, loadSystemThingData, h, hu, stWithSystem,
        sysClearUnsync]

/-- Witness for C3: on the example ledger, synchronizing `meter` at its
counter 2 clears the unsynchronized entry and answers true. -/
theorem featureSynchronized_ledger_cases_witness :
    alookup exStLedger.systems exThingID = some exSys ∧
    alookup exSys.unsynchronizedFeatures "meter" = some 2 ∧
    FeatureSynchronized exStLedger exThingID "meter" 2 =
      .ok (true, stWithSystem exStLedger exThingID (sysClearUnsync exSys "meter")) :=
  ⟨rfl, rfl,
    (((featureSynchronized_ledger_cases exStLedger exSys exThingID "meter" 2
      rfl).2 2 rfl).2 rfl)⟩

theorem smem_iff_mem (s : List String) (k : String) :
    smem s k = true ↔ k ∈ s := by
  induction s with
  | nil => simp [smem]
  | cons x rest ih =>
    by_cases h : x = k
    · subst h; simp [smem]
    · rw [smem, if_neg h, ih]
      constructor
      · intro hm
        exact List.mem_cons_of_mem _ hm
      · intro hm
        rcases List.mem_cons.mp hm with he | hm2
        · exact absurd he.symm h
        · exact hm2

theorem putFold_revision (fs : List (String × Feature))
    (acc : List (String × Feature) × SystemThingData) :
    ((fs.foldl (fun a p => putFeatureData a p.1 p.2) acc).2).revision =
      acc.2.revision := by
  induction fs generalizing acc with
  | nil => rfl
  | cons p rest ih =>
    obtain ⟨k, feat⟩ := p
    have step := ih (putFeatureData acc k feat)
    simp only [List.foldl_cons]
    rw [step]
    rfl

theorem putFold_unsync (fs : List (String × Feature))
    (acc : List (String × Feature) × SystemThingData) (f : String)
    (hnd : (fs.map Prod.fst).Nodup) :
    alookup ((fs.foldl (fun a p => putFeatureData a p.1 p.2) acc).2).unsynchronizedFeatures f =
      if f ∈ fs.map Prod.fst then
        some ((alookup acc.2.unsynchronizedFeatures f).getD 0 + 1)
      else alookup acc.2.unsynchronizedFeatures f := by
  induction fs generalizing acc with
  | nil => simp
  | cons p rest ih =>
    obtain ⟨k, feat⟩ := p
    simp only [List.map_cons, List.nodup_cons] at hnd
    obtain ⟨hk, hrest⟩ := hnd
    have step := ih (putFeatureData acc k feat) hrest
    simp only [List.foldl_cons]
    rw [step]
    by_cases h : f = k
    · subst h
      have hnotin : f ∉ rest.map Prod.fst := hk
      simp only [putFeatureData, alookup_aset]
      simp [hnotin]
    · have hne : ¬ k = f := fun he => h he.symm
      simp only [putFeatureData, alookup_aset]
      simp only [List.map_cons, List.mem_cons]
      rw [if_congr (or_iff_right h) rfl rfl]
      simp [hne]

theorem putFold_deleted_not_in (fs : List (String × Feature))
    (acc : List (String × Feature) × SystemThingData) (f : String)
    (hf : f ∉ fs.map Prod.fst) :
    smem ((fs.foldl (fun a p => putFeatureData a p.1 p.2) acc).2).deletedFeatures f =
      smem acc.2.deletedFeatures f := by
  induction fs generalizing acc with
  | nil => rfl
  | cons p rest ih =>
    obtain ⟨k, feat⟩ := p
    simp only [List.map_cons, List.mem_cons] at hf
    push_neg at hf
    obtain ⟨hk, hrest⟩ := hf
    have step := ih (putFeatureData acc k feat) hrest
    simp only [List.foldl_cons]
    rw [step]
    simp only [putFeatureData]
    rw [smem_serase]
    simp [bne_iff_ne.mpr hk]

theorem persistLedger_revision (prevIDs : List String) (sys : SystemThingData)
    (fs : List (String × Feature)) :
    (persistThingDataLedger prevIDs sys fs).2.revision = sys.revision := by
  simp only [persistThingDataLedger]
  rw [putFold_revision]

/-- C4: `AddThing` postcondition. On a thing without a prior ledger the
returned revision is the incoming revision (initialised to revision minus
one and bumped once); on an existing thing it is the prior ledger revision
plus one. In the written ledger every previously stored feature absent from
the payload is in `deletedFeatures`, and `unsynchronizedFeatures` maps
exactly the payload features, each to counter 1 (the map is cleared
first). -/
theorem addThing_postcondition (st : Storage) (thing : ThingPayload)
    (i : NamespacedID) (now : String) (r : Int) (st1 : Storage)
    (hid : thing.id = some i)
    (hns : i.nspace ≠ topicPlaceholder) (hname : i.name ≠ topicPlaceholder)
    (hnodup : (((thing.features).getD []).map Prod.fst).Nodup)
    (hadd : AddThing st thing now = .ok (r, st1)) :
    ∃ sys1,
      alookup st1.systems i.render = some sys1 ∧
      r = sys1.revision ∧
      (alookup st.systems i.render = none → r = thing.revision) ∧
      (∀ sys0, alookup st.systems i.render = some sys0 →
        r = sys0.revision + 1) ∧
      (∀ f, f ∈ (storedFeatures st i.render).map Prod.fst →
        f ∉ ((thing.features).getD []).map Prod.fst →
        smem sys1.deletedFeatures f = true) ∧
      (∀ f, alookup sys1.unsynchronizedFeatures f =
        if f ∈ ((thing.features).getD []).map Prod.fst then some 1 else none) := by
  have hv : ¬ (i.nspace = topicPlaceholder ∨ i.name = topicPlaceholder) :=
    not_or.mpr ⟨hns, hname⟩
  simp only [AddThing, hid] at hadd
  rw [if_neg hv] at hadd
  rw [Except.ok.injEq, Prod.mk.injEq] at hadd
  obtain ⟨hr, hst⟩ := hadd
  refine ⟨(persistThingDataLedger ((storedFeatures st i.render).map Prod.fst)
    (updateSystemThingDataFn (addThingInitialSystem st i.render thing.revision) now)
    ((thing.features).getD [])).2, ?_, ?_, ?_, ?_, ?_, ?_⟩
  · rw [← hst]
    simp [persistThingData, updateThingData, alookup_aset]
  · exact hr.symm
  · intro hnone
    rw [← hr, persistLedger_revision]
    simp only [updateSystemThingDataFn, addThingInitialSystem, hnone]
    omega
  · intro s0 hsome
    rw [← hr, persistLedger_revision]
    simp only [updateSystemThingDataFn, addThingInitialSystem, hsome]
  · intro f hfprev hfnew
    simp only [persistThingDataLedger]
    rw [putFold_deleted_not_in _ _ _ hfnew]
    simp only [smem_foldl_sinsert]
    simp [(smem_iff_mem _ _).mpr hfprev]
  · intro f
    simp only [persistThingDataLedger]
    rw [putFold_unsync _ _ _ hnodup]
    simp [alookup]

/-- Witness for C4: adding the example payload to the empty storage returns
its incoming revision 1 with `meter` unsynchronized at counter 1. -/
theorem addThing_postcondition_witness :
    exPayload.id = some exID ∧
    AddThing ({} : Storage) exPayload "t0" = .ok (1, exSt) ∧
    (∃ sys1,
      alookup exSt.systems exID.render = some sys1 ∧
      (1 : Int) = sys1.revision ∧
      (alookup ({} : Storage).systems exID.render = none →
        (1 : Int) = exPayload.revision) ∧
      (∀ sys0, alookup ({} : Storage).systems exID.render = some sys0 →
        (1 : Int) = sys0.revision + 1) ∧
      (∀ f, f ∈ (storedFeatures ({} : Storage) exID.render).map Prod.fst →
        f ∉ ((exPayload.features).getD []).map Prod.fst →
        smem sys1.deletedFeatures f = true) ∧
      (∀ f, alookup sys1.unsynchronizedFeatures f =
        if f ∈ ((exPayload.features).getD []).map Prod.fst then some 1 else none)) :=
  ⟨rfl, rfl,
    addThing_postcondition ({} : Storage) exPayload exID "t0" 1 exSt
      rfl (by decide) (by decide) (by decide) rfl⟩

theorem putFeatureData_disjoint (acc : List (String × Feature) × SystemThingData)
    (k : String) (feat : Feature) (h : LedgerDisjoint acc.2) :
    LedgerDisjoint (putFeatureData acc k feat).2 := by
  intro f hf
  simp only [putFeatureData] at hf ⊢
  rw [alookup_aset] at hf
  rw [smem_serase]
  by_cases hk : k = f
  · subst hk
    simp
  · rw [if_neg hk] at hf
    rw [h f hf]
    simp

theorem putFold_disjoint (fs : List (String × Feature))
    (acc : List (String × Feature) × SystemThingData) (h : LedgerDisjoint acc.2) :
    LedgerDisjoint ((fs.foldl (fun a p => putFeatureData a p.1 p.2) acc).2) := by
  induction fs generalizing acc with
  | nil => exact h
  | cons p rest ih =>
    obtain ⟨k, feat⟩ := p
    simp only [List.foldl_cons]
    exact ih (putFeatureData acc k feat) (putFeatureData_disjoint acc k feat h)

theorem persistLedger_disjoint (prevIDs : List String) (sys : SystemThingData)
    (fs : List (String × Feature)) :
    LedgerDisjoint (persistThingDataLedger prevIDs sys fs).2 := by
  simp only [persistThingDataLedger]
  apply putFold_disjoint
  intro f hf
  simp [alookup] at hf

theorem updateSystemFn_disjoint (sys : SystemThingData) (now : String)
    (h : LedgerDisjoint sys) : LedgerDisjoint (updateSystemThingDataFn sys now) := by
  intro f hf
  exact h f hf

theorem storageDisjoint_update (st st1 : Storage) (tid : String)
    (sys : SystemThingData) (h1 : StorageDisjoint st)
    (hst : st1.systems = aset st.systems tid sys) (h2 : LedgerDisjoint sys) :
    StorageDisjoint st1 := by
  intro id s hlook
  rw [hst, alookup_aset] at hlook
  by_cases he : tid = id
  · rw [if_pos he] at hlook
    cases hlook
    exact h2
  · rw [if_neg he] at hlook
    exact h1 id s hlook

/-- C5: the ledger disjointness invariant
(`unsynchronizedFeatures ∩ deletedFeatures = ∅`) is preserved by every
storage operation: `AddThing` (re-adding clears deleted while counting
unsynchronized), `AddFeature`, `RemoveFeature` (deleting clears
unsynchronized while marking deleted), `RemoveThing`,
`ThingSynchronized` and `FeatureSynchronized` (which only clear entries). -/
theorem ledger_disjoint_invariant (st : Storage) (hst : StorageDisjoint st) :
    (∀ thing now r st1, AddThing st thing now = .ok (r, st1) →
      StorageDisjoint st1) ∧
    (∀ tid fid feat now r st1, AddFeature st tid fid feat now = .ok (r, st1) →
      StorageDisjoint st1) ∧
    (∀ tid fid now st1, RemoveFeature st tid fid now = .ok st1 →
      StorageDisjoint st1) ∧
    (∀ tid st1, RemoveThing st tid = .ok st1 → StorageDisjoint st1) ∧
    (∀ tid rev b st1, ThingSynchronized st tid rev = .ok (b, st1) →
      StorageDisjoint st1) ∧
    (∀ tid fid rev b st1, FeatureSynchronized st tid fid rev = .ok (b, st1) →
      StorageDisjoint st1) := by
  have hload : ∀ tid d, loadSystemThingData st tid = .ok d →
      alookup st.systems tid = some d := by
    intro tid d h
    unfold loadSystemThingData at h
    split at h
    · rename_i s hs
      rw [Except.ok.injEq] at h
      rw [hs, h]
    · exact absurd h (by simp)
  refine ⟨?_, ?_, ?_, ?_, ?_, ?_⟩
  · intro thing now r st1 hok
    unfold AddThing at hok
    split at hok
    · exact absurd hok (by simp)
    · split at hok
      · exact absurd hok (by simp)
      · rw [Except.ok.injEq, Prod.mk.injEq] at hok
        obtain ⟨hr, hs⟩ := hok
        rw [← hs]
        exact storageDisjoint_update st _ _ _ hst rfl
          (persistLedger_disjoint _ _ _)
  · intro tid fid feat now r st1 hok
    unfold AddFeature at hok
    split at hok
    · exact absurd hok (by simp)
    · rename_i d heq
      rw [Except.ok.injEq] at hok
      rw [show st1 = (persistFeature st tid fid feat
        (updateSystemThingDataFn d now)).2 from congrArg Prod.snd hok.symm]
      refine storageDisjoint_update st _ tid _ hst rfl ?_
      exact putFeatureData_disjoint _ _ _
        (updateSystemFn_disjoint _ _ (hst tid d (hload tid d heq)))
  · intro tid fid now st1 hok
    unfold RemoveFeature at hok
    split at hok
    · exact absurd hok (by simp)
    · rename_i d heq
      dsimp only at hok
      split at hok
      · rw [Except.ok.injEq] at hok
        rw [← hok]
        refine storageDisjoint_update st _ tid _ hst rfl ?_
        intro f hf
        rw [alookup_aerase] at hf
        by_cases he : fid = f
        · rw [if_pos he] at hf
          simp at hf
        · rw [if_neg he] at hf
          simp only [updateSystemThingDataFn] at hf ⊢
          have hd := hst tid d (hload tid d heq) f hf
          rw [smem_sinsert, hd]
          simp [he]
      · exact absurd hok (by simp)
  · intro tid st1 hok
    unfold RemoveThing at hok
    split at hok
    · exact absurd hok (by simp)
    · rw [Except.ok.injEq] at hok
      intro id s hlook
      rw [← hok] at hlook
      simp only at hlook
      rw [alookup_aerase] at hlook
      by_cases he : tid = id
      · rw [if_pos he] at hlook
        cases hlook
      · rw [if_neg he] at hlook
        exact hst id s hlook
  · intro tid rev b st1 hok
    unfold ThingSynchronized at hok
    split at hok
    · exact absurd hok (by simp)
    · split at hok
      · rw [Except.ok.injEq, Prod.mk.injEq] at hok
        obtain ⟨hb, hs⟩ := hok
        rw [← hs]
        refine storageDisjoint_update st _ tid _ hst rfl ?_
        intro f hf
        simp [alookup] at hf
      · rw [Except.ok.injEq, Prod.mk.injEq] at hok
        obtain ⟨hb, hs⟩ := hok
        rw [← hs]
        exact hst
  · intro tid fid rev b st1 hok
    unfold FeatureSynchronized at hok
    split at hok
    · exact absurd hok (by simp)
    · rename_i d heq
      split at hok
      · split at hok
        · rw [Except.ok.injEq, Prod.mk.injEq] at hok
          obtain ⟨hb, hs⟩ := hok
          rw [← hs]
          refine storageDisjoint_update st _ tid _ hst rfl ?_
          intro f hf
          have hd := hst tid d (hload tid d heq) f hf
          rw [smem_serase, hd]
          simp
        · rw [Except.ok.injEq, Prod.mk.injEq] at hok
          obtain ⟨hb, hs⟩ := hok
          rw [← hs]
          exact hst
      · split at hok
        · rw [Except.ok.injEq, Prod.mk.injEq] at hok
          obtain ⟨hb, hs⟩ := hok
          rw [← hs]
          exact hst
        · rw [Except.ok.injEq, Prod.mk.injEq] at hok
          obtain ⟨hb, hs⟩ := hok
          rw [← hs]
          refine storageDisjoint_update st _ tid _ hst rfl ?_
          intro f hf
          rw [alookup_aerase] at hf
          by_cases he : fid = f
          · rw [if_pos he] at hf
            simp at hf
          · rw [if_neg he] at hf
            exact hst tid d (hload tid d heq) f hf

theorem exSt_disjoint : StorageDisjoint exSt := by
  intro id sys h
  simp only [exSt, alookup] at h
  split at h
  · cases h
    intro f hf
    rfl
  · cases h

/-- Witness for C5: the example storage (one thing, one unsynchronized
feature, nothing deleted) satisfies the invariant, and removing its feature
preserves it. -/
theorem ledger_disjoint_invariant_witness :
    StorageDisjoint exSt ∧
    (∀ st1, RemoveFeature exSt exThingID "meter" "t1" = .ok st1 →
      StorageDisjoint st1) :=
  ⟨exSt_disjoint,
    fun st1 hok =>
      (ledger_disjoint_invariant exSt exSt_disjoint).2.2.1
        exThingID "meter" "t1" st1 hok⟩

/-- C2: a delete command at path `/` (Thing scope) on an existing thing
answers 204 and emits a deleted event carrying the current ledger revision
and timestamp, but performs no storage mutation: the storage is returned
unchanged (so `GetThing` and the ledger are unchanged), and the
synchronization step after the upstream forward does nothing because the
command output carries no thing id hint. -/
theorem deleteThing_no_mutation (dev : DeviceInfo) (st : Storage)
    (thingID : String) (cmd : Envelope) (now : String) (t : ThingSnapshot)
    (ht : GetThing st thingID = .ok t)
    (hrr : responseRequired cmd.headers = true) :
    deleteThing dev st thingID cmd now =
      ({ response := some
           { topic := cmd.topic, path := cmd.path, status := statusDeleted,
             headers := responseHeaders cmd.headers },
         event := some (eventEnvelope cmd t.revision t.timestamp actionDeleted) },
       st, []) ∧
    GetThing ((deleteThing dev st thingID cmd now).2.1) thingID = .ok t ∧
    (∀ st2, resourceSynchronized st2 (deleteThing dev st thingID cmd now).1 = st2) := by
  have hmain : deleteThing dev st thingID cmd now =
      ({ response := some
           { topic := cmd.topic, path := cmd.path, status := statusDeleted,
             headers := responseHeaders cmd.headers },
         event := some (eventEnvelope cmd t.revision t.timestamp actionDeleted) },
       st, []) := by
    unfold deleteThing LoadThing
    rw [ht]
    simp [responseEnvelope, hrr]
  refine ⟨hmain, ?_, ?_⟩
  · rw [hmain]
    exact ht
  · intro st2
    rw [hmain]
    rfl

/-- Witness for C2: deleting the example thing leaves the example storage
untouched. -/
theorem deleteThing_no_mutation_witness :
    GetThing exSt exThingID = .ok exSnapshot ∧
    responseRequired exDeleteCmd.headers = true ∧
    deleteThing exDev exSt exThingID exDeleteCmd "t9" =
      ({ response := some
           { topic := exDeleteCmd.topic, path := exDeleteCmd.path,
             status := statusDeleted,
             headers := responseHeaders exDeleteCmd.headers },
         event := some (eventEnvelope exDeleteCmd exSnapshot.revision
           exSnapshot.timestamp actionDeleted) },
       exSt, []) :=
  ⟨rfl, rfl,
    (deleteThing_no_mutation exDev exSt exThingID exDeleteCmd "t9" exSnapshot
      rfl rfl).1⟩

theorem responseRequired_clear (h : Headers) :
    responseRequired (withResponseRequired h false) = false := by
  simp [withResponseRequired, responseRequired, alookup_aset]

/-- C1 counterexample: a delete thing command on an existing thing is
served successfully and produces a local response, yet the message
forwarded upstream is the original one with the response-required flag
still effectively true (the claim says every such forward carries the flag
cleared). -/
theorem forward_response_required_counterexample :
    (deleteThing exDev exSt exThingID exDeleteCmd "t9").1.response.isSome = true ∧
    forwardedCommand exDeleteCmd
      (deleteThing exDev exSt exThingID exDeleteCmd "t9").1 = exDeleteCmd ∧
    responseRequired (forwardedCommand exDeleteCmd
      (deleteThing exDev exSt exThingID exDeleteCmd "t9").1).headers = true :=
  ⟨rfl, rfl, rfl⟩

/-- C1 amended: the upstream forward clears the response-required flag only
when a local response was produced and the command action is retrieve; for
every other served command (modify, create, delete, or any command without
a response) the original message is forwarded with its headers unchanged. -/
theorem forward_response_required_amended (command : Envelope)
    (output : CommandOutput) :
    (output.response.isSome = true → command.topic.action = actionRetrieve →
      forwardedCommand command output = cmdWithNoResponseRequired command ∧
      responseRequired (forwardedCommand command output).headers = false) ∧
    (command.topic.action ≠ actionRetrieve →
      forwardedCommand command output = command) ∧
    (output.response = none → forwardedCommand command output = command) := by
  refine ⟨?_, ?_, ?_⟩
  · intro hr ha
    have he : forwardedCommand command output = cmdWithNoResponseRequired command := by
      unfold forwardedCommand
      rw [hr, ha]
      simp
    refine ⟨he, ?_⟩
    rw [he]
    exact responseRequired_clear command.headers
  · intro ha
    unfold forwardedCommand
    rw [if_neg ha]
    simp
  · intro hr
    unfold forwardedCommand
    rw [hr]
    simp

/-- Witness for the amended C1: a retrieve command with a response is
forwarded with the flag cleared. -/
theorem forward_response_required_amended_witness :
    ({ response := some (NewThingNotFoundError (exRetrieveCmd none) exThingID) }
        : CommandOutput).response.isSome = true ∧
    (exRetrieveCmd none).topic.action = actionRetrieve ∧
    (forwardedCommand (exRetrieveCmd none)
        { response := some (NewThingNotFoundError (exRetrieveCmd none) exThingID) } =
      cmdWithNoResponseRequired (exRetrieveCmd none) ∧
     responseRequired (forwardedCommand (exRetrieveCmd none)
        { response := some (NewThingNotFoundError (exRetrieveCmd none) exThingID) }).headers =
      false) :=
  ⟨rfl, rfl,
    (forward_response_required_amended (exRetrieveCmd none)
      { response := some (NewThingNotFoundError (exRetrieveCmd none) exThingID) }).1
      rfl rfl⟩

theorem doRetrieveLoop_colon (st : Storage) (cmd : Envelope)
    (ids : List String) (acc : List ThingSnapshot)
    (h : ∀ i ∈ ids, containsChar i ':' = true) :
    doRetrieveThingsLoop st cmd ids acc =
      doRetrieveThingsLoop st cmd []
        (acc ++ ids.filterMap (fun i => (GetThing st i).toOption)) := by
  induction ids generalizing acc with
  | nil => simp
  | cons id rest ih =>
    have hid : containsChar id ':' = true := h id (by simp)
    have hrest : ∀ i ∈ rest, containsChar i ':' = true :=
      fun i hi => h i (List.mem_cons_of_mem _ hi)
    cases hget : GetThing st id with
    | ok t =>
      have hstep : doRetrieveThingsLoop st cmd (id :: rest) acc =
          doRetrieveThingsLoop st cmd rest (acc ++ [t]) := by
        simp only [doRetrieveThingsLoop]
        rw [if_neg (by simp [hid]), hget]
      rw [hstep, ih (acc ++ [t]) hrest]
      have harg : (acc ++ [t]) ++
            List.filterMap (fun i => (GetThing st i).toOption) rest =
          acc ++ List.filterMap (fun i => (GetThing st i).toOption) (id :: rest) := by
        simp [List.filterMap_cons, hget, Except.toOption]
      rw [harg]
    | error e =>
      have hstep : doRetrieveThingsLoop st cmd (id :: rest) acc =
          doRetrieveThingsLoop st cmd rest acc := by
        simp only [doRetrieveThingsLoop]
        rw [if_neg (by simp [hid]), hget]
      rw [hstep, ih acc hrest]
      have harg : acc ++ List.filterMap (fun i => (GetThing st i).toOption) rest =
          acc ++ List.filterMap (fun i => (GetThing st i).toOption) (id :: rest) := by
        simp [List.filterMap_cons, hget, Except.toOption]
      rw [harg]

theorem doRetrieveLoop_bad (st : Storage) (cmd : Envelope) (bad : String)
    (hbad : containsChar bad ':' = false) :
    ∀ pre rest acc, (∀ i ∈ pre, containsChar i ':' = true) →
    doRetrieveThingsLoop st cmd (pre ++ bad :: rest) acc =
      some (NewIDInvalidError cmd bad) := by
  intro pre
  induction pre with
  | nil =>
    intro rest acc hpre
    simp only [List.nil_append, doRetrieveThingsLoop]
    rw [if_pos (by simp [hbad])]
  | cons id pre2 ih =>
    intro rest acc hpre
    have hid : containsChar id ':' = true := hpre id (by simp)
    have hpre2 : ∀ i ∈ pre2, containsChar i ':' = true :=
      fun i hi => hpre i (List.mem_cons_of_mem _ hi)
    cases hget : GetThing st id with
    | ok t =>
      have hstep : doRetrieveThingsLoop st cmd ((id :: pre2) ++ bad :: rest) acc =
          doRetrieveThingsLoop st cmd (pre2 ++ bad :: rest) (acc ++ [t]) := by
        simp only [List.cons_append, doRetrieveThingsLoop]
        rw [if_neg (by simp [hid]), hget]
        rfl
      rw [hstep]
      exact ih rest (acc ++ [t]) hpre2
    | error e =>
      have hstep : doRetrieveThingsLoop st cmd ((id :: pre2) ++ bad :: rest) acc =
          doRetrieveThingsLoop st cmd (pre2 ++ bad :: rest) acc := by
        simp only [List.cons_append, doRetrieveThingsLoop]
        rw [if_neg (by simp [hid]), hget]
        rfl
      rw [hstep]
      exact ih rest acc hpre2

/-- C6 counterexample: a wildcard batch retrieve whose `thingIds` list is
empty answers the `json.invalid` error (status 400), not the
`things:id.invalid` error the claim states. -/
theorem retrieveThings_empty_counterexample :
    retrieveThings ({} : Storage)
        (exRetrieveCmd (some (.raw (.obj [("thingIds", .arr [])])))) =
      some (NewInvalidJSONValueError
        (exRetrieveCmd (some (.raw (.obj [("thingIds", .arr [])]))))
        "Empty thingIds value") ∧
    (NewInvalidJSONValueError
        (exRetrieveCmd (some (.raw (.obj [("thingIds", .arr [])]))))
        "Empty thingIds value").status = 400 ∧
    (NewInvalidJSONValueError
        (exRetrieveCmd (some (.raw (.obj [("thingIds", .arr [])]))))
        "Empty thingIds value").value =
      some (.thingError
        { status := 400, error := "json.invalid",
          message := "Failed to parse command value: Empty thingIds value.",
          description := "Check if the JSON was valid and if it was in required format." }) ∧
    ("json.invalid" : String) ≠ "things:id.invalid" :=
  ⟨rfl, rfl, rfl, by decide⟩

/-- C6 amended: for a wildcard batch retrieve, an empty or absent
`thingIds` list answers `json.invalid` (400); the first entry without a
colon answers `things:id.invalid` (400); when every entry has a colon the
entries naming unknown things are silently skipped and the response is the
200 array of the found things. -/
theorem retrieveThings_amended (st : Storage) (cmd : Envelope) (v : JsonVal)
    (m : List (String × List String))
    (hv : cmd.value = some (.raw v)) (hm : jsonToStringsMap v = some m) :
    (((alookup m "thingIds").getD []).length = 0 →
      retrieveThings st cmd =
        some (NewInvalidJSONValueError cmd "Empty thingIds value")) ∧
    ((alookup m "thingIds").getD [] ≠ [] →
      (∀ i ∈ (alookup m "thingIds").getD [], containsChar i ':' = true) →
      cmd.fields = "" →
      retrieveThings st cmd =
        ResponseEnvelopeWithValue cmd statusOK
          (.things (((alookup m "thingIds").getD []).filterMap
            (fun i => (GetThing st i).toOption)))) ∧
    (∀ pre bad rest, (alookup m "thingIds").getD [] = pre ++ bad :: rest →
      (∀ i ∈ pre, containsChar i ':' = true) → containsChar bad ':' = false →
      retrieveThings st cmd = some (NewIDInvalidError cmd bad)) := by
  refine ⟨?_, ?_, ?_⟩
  · intro h0
    simp only [retrieveThings, hv, hm]
    rw [if_pos h0]
  · intro hne hcolon hfields
    simp only [retrieveThings, hv, hm]
    rw [if_neg (by simp [hne])]
    unfold doRetrieveThings
    rw [doRetrieveLoop_colon st cmd _ [] hcolon]
    simp only [doRetrieveThingsLoop, List.nil_append]
    rw [if_pos (by simp [hfields])]
  · intro pre bad rest hsplit hpre hbad
    simp only [retrieveThings, hv, hm]
    rw [if_neg (by simp [hsplit])]
    unfold doRetrieveThings
    rw [hsplit]
    exact doRetrieveLoop_bad st cmd bad hbad pre rest [] hpre

/-- Witness for the amended C6: retrieving the known example thing and an
unknown id answers a 200 with the one found thing. -/
theorem retrieveThings_amended_witness :
    (exRetrieveCmd (some (.raw (.obj [("thingIds",
        .arr [.str exThingID, .str "org.eclipse.kanto:b"])])))).value =
      some (.raw (.obj [("thingIds",
        .arr [.str exThingID, .str "org.eclipse.kanto:b"])])) ∧
    jsonToStringsMap (.obj [("thingIds",
        .arr [.str exThingID, .str "org.eclipse.kanto:b"])]) =
      some [("thingIds", [exThingID, "org.eclipse.kanto:b"])] ∧
    retrieveThings exSt (exRetrieveCmd (some (.raw (.obj [("thingIds",
        .arr [.str exThingID, .str "org.eclipse.kanto:b"])])))) =
      ResponseEnvelopeWithValue
        (exRetrieveCmd (some (.raw (.obj [("thingIds",
          .arr [.str exThingID, .str "org.eclipse.kanto:b"])]))))
        statusOK
        (.things ((([exThingID, "org.eclipse.kanto:b"] : List String)).filterMap
          (fun i => (GetThing exSt i).toOption))) :=
  ⟨rfl, rfl,
    ((retrieveThings_amended exSt
      (exRetrieveCmd (some (.raw (.obj [("thingIds",
        .arr [.str exThingID, .str "org.eclipse.kanto:b"])]))))
      (.obj [("thingIds", .arr [.str exThingID, .str "org.eclipse.kanto:b"])])
      [("thingIds", [exThingID, "org.eclipse.kanto:b"])]
      rfl rfl).2.1 (by decide) (by decide) rfl)⟩

/-- C7: the feature sync command drained upstream by the synchronizer is a
modify of the whole feature at `/features/<f>` when the feature has no
desired properties (nil or empty map, per Go len), and a modify of only the
properties map at `/features/<f>/properties` when it has desired
properties. -/
theorem featureSyncCmd_shape (thingID : NamespacedID) (featureID : String)
    (f : Feature) :
    (goMapLen f.desiredProperties = 0 →
      featureSyncCmd thingID featureID f =
        { topic := thingsCommandTopic thingID actionModify,
          path := "/features/" ++ featureID,
          value := some (.feature f) }) ∧
    (goMapLen f.desiredProperties ≠ 0 →
      featureSyncCmd thingID featureID f =
        { topic := thingsCommandTopic thingID actionModify,
          path := "/features/" ++ featureID ++ "/properties",
          value := some (.props f.properties) }) := by
  constructor
  · intro h
    unfold featureSyncCmd
    rw [if_pos h]
    rfl
  · intro h
    unfold featureSyncCmd
    rw [if_neg h]
    rfl

/-- Witness for C7: both shapes at the example features. -/
theorem featureSyncCmd_shape_witness :
    goMapLen exFeature.desiredProperties = 0 ∧
    featureSyncCmd exID "meter" exFeature =
      { topic := thingsCommandTopic exID actionModify,
        path := "/features/" ++ "meter",
        value := some (.feature exFeature) } ∧
    goMapLen exFeatureDesired.desiredProperties ≠ 0 ∧
    featureSyncCmd exID "meter" exFeatureDesired =
      { topic := thingsCommandTopic exID actionModify,
        path := "/features/" ++ "meter" ++ "/properties",
        value := some (.props exFeatureDesired.properties) } :=
  ⟨rfl,
    (featureSyncCmd_shape exID "meter" exFeature).1 rfl,
    by decide,
    (featureSyncCmd_shape exID "meter" exFeatureDesired).2 (by decide)⟩

/-- C9: timeout header handling. The defaults and the in range parses
behave as claimed: an absent header and an out of range value yield the 60
second default, and a valid value in range parses to its duration. But the
claim that a syntactically invalid timeout string makes header parsing
fail with an error is broken by the one character string `s`: the unit
check reads `timeout[l-2]` with `l = 1` and panics with an index out of
range, both in `Timeout()` and in `Headers.UnmarshalJSON`, contradicting
the documented behaviour (an error return). -/
theorem parseTimeout_panics_on_s :
    parseTimeout "s" = .panicked ∧
    headersUnmarshalJSON (.obj [("timeout", .str "s")]) = .panicked ∧
    headersTimeout [] = .value (60 * durSecond) ∧
    parseTimeout "45s" = .value (some (45 * durSecond)) ∧
    parseTimeout "250ms" = .value (some (250 * durMillisecond)) ∧
    parseTimeout "1m" = .value (some durMinute) ∧
    parseTimeout "60" = .value (some (60 * durSecond)) ∧
    parseTimeout "7200s" = .value none ∧
    headersTimeout [("timeout", JsonVal.str "7200s")] = .value (60 * durSecond) ∧
    parseTimeout "-5" = .value none ∧
    headersUnmarshalJSON (.obj [("timeout", .str "nonsense")]) = .value none :=
  ⟨rfl, rfl, rfl, rfl, rfl, rfl, rfl, rfl, rfl, rfl, rfl⟩

/-- C10: `Topic.UnmarshalJSON` indexes the slash separated segments without
checking their number: the valid JSON strings `ns/id` (two segments) and
`ns/id/things/twin` (four segments, things group needs five) panic with an
index out of range instead of returning an error, while a full six segment
topic parses; envelope decoding of inbound messages is therefore not
total. -/
theorem topicUnmarshal_panics_on_short_input :
    topicUnmarshal "ns/id" = .panicked ∧
    topicUnmarshal "ns/id/things/twin" = .panicked ∧
    topicUnmarshal "org.eclipse.kanto/test/things/twin/commands/modify" =
      .value (some
        { nspace := "org.eclipse.kanto", entityID := "test",
          group := groupThings, channel := channelTwin,
          criterion := criterionCommands, action := actionModify }) :=
  ⟨rfl, rfl, rfl⟩

theorem append_empty_str (a : String) : a ++ "" = a := by
  apply String.ext
  simp [String.data_append]

theorem empty_append_str (a : String) : "" ++ a = a := by
  apply String.ext
  simp [String.data_append]

theorem smem_foldl_serase_true (l : List String) (cur : List String) (x : String)
    (h : smem (l.foldl serase cur) x = true) : smem cur x = true := by
  induction l generalizing cur with
  | nil => exact h
  | cons y rest ih =>
    have h2 := ih (serase cur y) h
    rw [smem_serase] at h2
    exact (Bool.and_eq_true_iff.mp h2).1

theorem smem_foldl_serase_false (l : List String) (cur : List String) (x : String)
    (h : smem cur x = false) : smem (l.foldl serase cur) x = false := by
  induction l generalizing cur with
  | nil => exact h
  | cons y rest ih =>
    apply ih
    rw [smem_serase, h]
    rfl

theorem mem_foldl_serase_self (l : List String) (cur : List String) (x : String)
    (h : x ∈ l) : smem (l.foldl serase cur) x = false := by
  induction l generalizing cur with
  | nil => cases h
  | cons y rest ih =>
    rcases List.mem_cons.mp h with he | hm
    · subst he
      rw [List.foldl_cons]
      apply smem_foldl_serase_false
      rw [smem_serase]
      simp
    · rw [List.foldl_cons]
      exact ih (serase cur y) hm

theorem emiLoop_smem (keys : List String) (cur : List String) (x : String)
    (h : smem (emiLoop keys cur) x = true) : smem cur x = true := by
  induction keys generalizing cur with
  | nil => exact h
  | cons f rest ih =>
    rw [emiLoop] at h
    by_cases hc : smem cur f = true
    · rw [if_pos hc] at h
      exact smem_foldl_serase_true _ _ _ (ih _ h)
    · rw [if_neg hc] at h
      exact ih _ h

theorem emiLoop_smem_false (keys : List String) (cur : List String) (x : String)
    (h : smem cur x = false) : smem (emiLoop keys cur) x = false := by
  cases hr : smem (emiLoop keys cur) x with
  | false => rfl
  | true => rw [emiLoop_smem keys cur x hr] at h; cases h

theorem emiLoop_kills (keys : List String) : ∀ (cur : List String) (q x : String),
    smem (emiLoop keys cur) q = true → smem keys q = true → x ∈ parentsOf q →
    smem (emiLoop keys cur) x = false := by
  induction keys with
  | nil =>
    intro cur q x hfin hkeys hx
    cases hkeys
  | cons f rest ih =>
    intro cur q x hfin hkeys hx
    rw [emiLoop] at hfin ⊢
    by_cases hc : smem cur f = true
    · rw [if_pos hc] at hfin ⊢
      by_cases hqf : f = q
      · subst hqf
        apply emiLoop_smem_false
        exact mem_foldl_serase_self _ _ _ hx
      · have hkeys2 : smem rest q = true := by
          rw [smem] at hkeys
          rwa [if_neg hqf] at hkeys
        exact ih _ q x hfin hkeys2 hx
    · rw [if_neg hc] at hfin ⊢
      by_cases hqf : f = q
      · subst hqf
        rw [emiLoop_smem rest cur f hfin] at hc
        cases hc rfl
      · have hkeys2 : smem rest q = true := by
          rw [smem] at hkeys
          rwa [if_neg hqf] at hkeys
        exact ih _ q x hfin hkeys2 hx

theorem splitCharList_append (c : Char) (xs ys : List Char) :
    ∀ acc, splitCharList c (xs ++ c :: ys) acc =
      splitCharList c xs acc ++ splitCharList c ys [] := by
  induction xs with
  | nil =>
    intro acc
    simp only [List.nil_append, splitCharList, eq_self_iff_true, if_true]
    rfl
  | cons x rest ih =>
    intro acc
    by_cases h : x = c
    · subst h
      simp only [List.cons_append, splitCharList, eq_self_iff_true, if_true,
        List.append_eq]
      rw [ih []]
    · simp only [List.cons_append, splitCharList, if_neg h, List.append_eq]
      rw [ih (acc ++ [x])]

theorem splitChar_append_slash (a b : String) :
    splitChar '/' (a ++ "/" ++ b) = splitChar '/' a ++ splitChar '/' b := by
  unfold splitChar
  have hd : (a ++ "/" ++ b).data = a.data ++ '/' :: b.data := by
    simp [String.data_append]
  rw [hd]
  exact splitCharList_append '/' a.data b.data []

theorem splitCharList_ne_nil (c : Char) (l : List Char) (acc : List Char) :
    splitCharList c l acc ≠ [] := by
  induction l generalizing acc with
  | nil => simp [splitCharList]
  | cons x rest ih =>
    by_cases h : x = c
    · subst h
      simp [splitCharList]
    · simp only [splitCharList, if_neg h]
      exact ih _

theorem joinSlash_cons (x : String) (l : List String) (h : l ≠ []) :
    joinSlash (x :: l) = x ++ "/" ++ joinSlash l := by
  cases l with
  | nil => cases h rfl
  | cons y rest => rfl

theorem joinFrom_assoc (l : List String) : ∀ (a b : String),
    joinFrom (a ++ "/" ++ b) l = a ++ "/" ++ joinFrom b l := by
  induction l with
  | nil => intro a b; rfl
  | cons z rest ih =>
    intro a b
    simp only [joinFrom, List.foldl_cons]
    have hstep : nodePath (a ++ "/" ++ b) z = a ++ "/" ++ nodePath b z := by
      simp [nodePath, String.append_assoc]
    rw [hstep]
    exact ih a (nodePath b z)

theorem joinSlash_eq_joinFrom (l : List String) : ∀ (x : String),
    joinSlash (x :: l) = joinFrom x l := by
  induction l with
  | nil => intro x; rfl
  | cons y rest ih =>
    intro x
    rw [joinSlash_cons x (y :: rest) (by simp), ih y]
    have hstep : joinFrom x (y :: rest) = joinFrom (nodePath x y) rest := rfl
    rw [hstep]
    exact (joinFrom_assoc rest x y).symm

theorem joinSlash_splitCharList (l : List Char) : ∀ (acc : List Char),
    joinSlash (splitCharList '/' l acc) = String.mk acc ++ String.mk l := by
  induction l with
  | nil =>
    intro acc
    simp only [splitCharList, joinSlash]
    exact (append_empty_str _).symm
  | cons x rest ih =>
    intro acc
    by_cases h : x = '/'
    · subst h
      simp only [splitCharList, eq_self_iff_true, if_true]
      rw [joinSlash_cons _ _ (splitCharList_ne_nil _ _ _), ih []]
      apply String.ext
      simp [String.data_append]
    · simp only [splitCharList, if_neg h]
      rw [ih (acc ++ [x])]
      apply String.ext
      simp [String.data_append]

theorem joinSlash_splitChar (s : String) : joinSlash (splitChar '/' s) = s := by
  unfold splitChar
  rw [joinSlash_splitCharList s.data []]
  apply String.ext
  simp [String.data_append]

theorem parentsLoop_mem (ns2 : List String) (h2 : ns2 ≠ []) :
    ∀ (ns1 : List String) (i last : Nat) (parent : String), ns1 ≠ [] →
    (∀ n ∈ ns1, n ≠ "") → 1 ≤ i → (ns1 ++ ns2).length + i = last + 1 →
    joinFrom parent ns1 ∈ parentsLoop (ns1 ++ ns2) i last parent := by
  intro ns1
  induction ns1 with
  | nil => intro i last parent h1; cases h1 rfl
  | cons n ns1x ih =>
    intro i last parent _ hne hi hlast
    have hn : n ≠ "" := hne n (by simp)
    have hlen2 : 1 ≤ ns2.length := by
      cases ns2 with
      | nil => cases h2 rfl
      | cons _ _ => simp
    have hil : i ≠ last := by
      simp only [List.cons_append, List.length_cons, List.length_append] at hlast
      omega
    have hi0 : ¬ (i = 0) := by omega
    simp only [List.cons_append, parentsLoop]
    rw [if_pos ⟨hil, hn⟩, if_neg hi0]
    cases hx : ns1x with
    | nil =>
      subst hx
      simp only [joinFrom, List.foldl_cons, List.foldl_nil]
      exact List.mem_cons_self _ _
    | cons m tl =>
      rw [← hx]
      have hx2 : ns1x ≠ [] := by rw [hx]; simp
      have hstep : joinFrom parent (n :: ns1x) = joinFrom (nodePath parent n) ns1x := rfl
      rw [hstep]
      apply List.mem_cons_of_mem
      apply ih (i + 1) last (nodePath parent n) hx2
        (fun nn hnn => hne nn (List.mem_cons_of_mem _ hnn)) (by omega)
      simp only [List.cons_append, List.length_cons, List.length_append] at hlast ⊢
      omega

theorem parentsOf_mem_of_split (pf r : String) (hpf : pf ≠ "")
    (hall : ∀ n ∈ splitChar '/' (pf ++ "/" ++ r), n ≠ "") :
    pf ∈ parentsOf (pf ++ "/" ++ r) := by
  unfold parentsOf
  rw [splitChar_append_slash]
  have hs1 : splitChar '/' pf ≠ [] := splitCharList_ne_nil _ _ _
  have hs2 : splitChar '/' r ≠ [] := splitCharList_ne_nil _ _ _
  have hallpf : ∀ n ∈ splitChar '/' pf, n ≠ "" := by
    intro n hn
    apply hall
    rw [splitChar_append_slash]
    exact List.mem_append_left _ hn
  have hjoin : joinSlash (splitChar '/' pf) = pf := joinSlash_splitChar pf
  cases hsp : splitChar '/' pf with
  | nil => exact absurd hsp hs1
  | cons n0 ns1x =>
    have hn0 : n0 ≠ "" := by
      apply hallpf
      rw [hsp]
      simp
    have hlen2 : 1 ≤ (splitChar '/' r).length := by
      cases hr2 : splitChar '/' r with
      | nil => exact absurd hr2 hs2
      | cons _ _ => simp
    have h0last : ¬ ((0 : Nat) = ((n0 :: ns1x) ++ splitChar '/' r).length - 1) := by
      simp only [List.cons_append, List.length_cons, List.length_append]
      omega
    simp only [List.cons_append, parentsLoop]
    rw [if_pos ⟨by simpa using h0last, hn0⟩]
    simp only [if_true]
    cases hx : ns1x with
    | nil =>
      subst hx
      have hpfn : pf = n0 := by
        rw [hsp] at hjoin
        simpa [joinSlash] using hjoin.symm
      rw [hpfn]
      exact List.mem_cons_self _ _
    | cons m tl =>
      rw [← hx]
      have hx2 : ns1x ≠ [] := by rw [hx]; simp
      have hpfjoin : pf = joinFrom n0 ns1x := by
        rw [hsp] at hjoin
        rw [← hjoin, joinSlash_eq_joinFrom]
      rw [hpfjoin]
      apply List.mem_cons_of_mem
      have harith : ((ns1x ++ splitChar '/' r).length) + 1 =
          (((n0 :: ns1x) ++ splitChar '/' r).length - 1) + 1 := by
        simp only [List.cons_append, List.length_cons, List.length_append]
        omega
      exact parentsLoop_mem (splitChar '/' r) hs2 ns1x 1
        (((n0 :: ns1x) ++ splitChar '/' r).length - 1) n0 hx2
        (fun nn hnn => hallpf nn (by rw [hsp]; exact List.mem_cons_of_mem _ hnn))
        (by omega) harith

/-- C8 counterexample: for the selector `a/,a//b` the compiler returns both
the pointer `/a/` and its strict extension `/a//b`, so a produced pointer is
not always most inner. -/
theorem selector_most_inner_counterexample :
    SelectorToJSONPointers "a/,a//b" = Except.ok ["/a/", "/a//b"] ∧
    "/a//b" = "/a/" ++ "/" ++ "b" := ⟨rfl, rfl⟩

/-- C8: amended most inner property of `SelectorToJSONPointers`. Whenever the
returned pointer list contains both a pointer `p` and a strict extension
`q = p ++ "/" ++ r` of it, the extension `q` has an empty reference token
(after the leading one); equivalently, among pointers all of whose reference
tokens are non empty, `ensureMostInnerFields` does guarantee that no returned
pointer is a prefix path of another returned pointer. -/
theorem selector_most_inner_amended (selector : String) (ps : List String)
    (p q r : String)
    (hsel : SelectorToJSONPointers selector = Except.ok ps)
    (hp : p ∈ ps) (hq : q ∈ ps) (hext : q = p ++ "/" ++ r) :
    ∃ n ∈ (splitChar '/' q).drop 1, n = "" := by
  by_contra hcon
  push_neg at hcon
  unfold SelectorToJSONPointers at hsel
  by_cases hv : validateJSONFieldSelector selector = true
  · rw [if_pos hv] at hsel
    have hps := (Except.ok.inj hsel).symm
    subst hps
    obtain ⟨pf, hpfmem, hpeq⟩ := List.mem_map.mp hp
    obtain ⟨qf, hqfmem, hqeq⟩ := List.mem_map.mp hq
    simp only [flattenPtrsF, flattenPtrsWith, ensureMostInnerFields] at hpfmem hqfmem
    obtain ⟨hpf_emi, hpf_ne⟩ := List.mem_filter.mp hpfmem
    obtain ⟨hqf_emi, hqf_ne⟩ := List.mem_filter.mp hqfmem
    have hpf_ne2 : pf ≠ "" := bne_iff_ne.mp hpf_ne
    have hq2 : qf = pf ++ "/" ++ r := by
      have hd : q.data = p.data ++ '/' :: r.data := by
        rw [hext]
        simp [String.data_append]
      rw [← hqeq, ← hpeq] at hd
      simp only [nodePath, String.data_append] at hd
      apply String.ext
      simp [String.data_append]
      simpa using hd
    have hsplitq : splitChar '/' q = "" :: splitChar '/' qf := by
      rw [← hqeq]
      have hkey := splitChar_append_slash "" qf
      simpa [nodePath, splitChar, splitCharList] using hkey
    have hall : ∀ n ∈ splitChar '/' qf, n ≠ "" := by
      intro n hn
      apply hcon n
      rw [hsplitq]
      simpa using hn
    have hpfpar : pf ∈ parentsOf qf := by
      rw [hq2]
      exact parentsOf_mem_of_split pf r hpf_ne2 (by rw [← hq2]; exact hall)
    have hq_smem : smem (emiLoop _ _) qf = true := (smem_iff_mem _ _).mpr hqf_emi
    have hm_smem := emiLoop_smem _ _ qf hq_smem
    have hkill := emiLoop_kills _ _ qf pf hq_smem hm_smem hpfpar
    have hp_smem : smem (emiLoop _ _) pf = true := (smem_iff_mem _ _).mpr hpf_emi
    rw [hkill] at hp_smem
    cases hp_smem
  · rw [if_neg hv] at hsel
    cases hsel

theorem selector_most_inner_amended_witness :
    ∃ n ∈ (splitChar '/' "/a//b").drop 1, n = "" :=
  selector_most_inner_amended "a/,a//b" ["/a/", "/a//b"] "/a/" "/a//b" "b" rfl
    (by simp) (by simp) rfl

end LDT
